import Mathlib

/-!
# Verification of the NeuronDB HNSW index access method

A shallow embedding, in Lean 4, of the HNSW index access method implemented in
`src/index/hnsw_am.c` of the NeuronDB repository, together with theorems that
settle the claims of the specification against the code.

Modelling conventions:

* `BlockNumber` is `Nat`; the PostgreSQL sentinel `InvalidBlockNumber`
  (`0xFFFFFFFF`) is the constant `INVALID_BLOCK`.
* C `int`/`int16`/`int64` fields are `Int` (overflow on these paths is either
  checked by the code or out of the claims' range); `size_t` arithmetic is
  `Nat` reduced mod `2 ^ 64` exactly where the C code can wrap.
* `float4`/`double` *values stored in vectors* are abstracted: graph-level
  models carry vectors as `List ℚ` and receive the distance function as an
  oracle parameter `aDistFn` (strategy, vec, vec ↦ distance), because IEEE
  arithmetic is not kernel-computable.  The distance *formulas* themselves are
  modelled separately over `ℝ` (`hnswComputeDistanceR`).
* A page is `HnswPage`: `.empty` (new/empty, also block 0, whose meta data
  lives outside the line-pointer area, so `PageIsEmpty` is true for it), or
  `.node dead rec`.  An item marked dead by `ItemIdSetDead` keeps its page
  non-empty; code paths that read such an item without an `ItemIdIsValid`
  check are modelled as reading the stored record.  No theorem below depends
  on the contents read from a dead item.
* Buffer locking, WAL and memory management are invisible to the functional
  model; the `reads` trace of the search model records the blocks passed to
  `ReadBuffer`, in order, and the `strats` trace records the `strategy`
  argument of every `hnswComputeDistance` call, in order.
-/

set_option linter.unusedVariables false

namespace HnswAm

/-- `InvalidBlockNumber` (0xFFFFFFFF). -/
def INVALID_BLOCK : Nat := 4294967295

/-- `HNSW_MAX_LEVEL`. -/
def HNSW_MAX_LEVEL : Nat := 16

/-- `HNSW_MIN_M` / `HNSW_MAX_M`. -/
def HNSW_MIN_M : Int := 2
def HNSW_MAX_M : Int := 128

/-- `HNSW_MIN_EF_CONSTRUCTION` / `HNSW_MAX_EF_CONSTRUCTION`. -/
def HNSW_MIN_EF_CONSTRUCTION : Int := 4
def HNSW_MAX_EF_CONSTRUCTION : Int := 10000

/-- `HNSW_MIN_EF_SEARCH` / `HNSW_MAX_EF_SEARCH`. -/
def HNSW_MIN_EF_SEARCH : Int := 4
def HNSW_MAX_EF_SEARCH : Int := 10000

/-- 2^64, the modulus of `size_t` arithmetic on the 64-bit host. -/
def W64 : Nat := 2 ^ 64

/-- `sizeof(HnswNodeData)` on the 64-bit host: `ItemPointerData` (6 bytes,
offset 0), `int level` (offset 8), `int16 dim` (offset 12),
`int16 neighborCount[16]` (offset 14), struct size rounded to 48. -/
def SIZEOF_HNSW_NODE_DATA : Nat := 48

/-- `MAXALIGN` on the 64-bit host rounds up to a multiple of 8, in `size_t`
arithmetic (the `+ 7` may wrap before the mask). -/
def MAXALIGN64 (x : Nat) : Nat := ((x + 7) % W64) / 8 * 8

/-- The PostgreSQL heap page size `BLCKSZ`. -/
def BLCKSZ : Nat := 8192

/--
`hnswComputeNodeSizeSafe(dim, level, m, &overflow)`: node-size computation
with explicit overflow checks.  Returns `(size, overflow)`.  `size_t` casts
of the `int` arguments and every multiplication/addition are taken mod 2^64,
exactly as on the host; the code's division-based overflow checks and the
final `MAXALIGN` wrap check are reproduced verbatim.
-/
def hnswComputeNodeSizeSafe (dim level m : Int) : Nat × Bool :=
  if m < HNSW_MIN_M ∨ m > HNSW_MAX_M then (0, true)
  else
    -- vectorSize = (size_t) dim * sizeof(float4)
    let dimW : Nat := (dim % (W64 : Int)).toNat
    let vectorSize : Nat := dimW * 4 % W64
    if vectorSize / 4 ≠ dimW then (0, true)
    else
      -- neighborSize = (size_t)(level + 1) * m * 2 * sizeof(BlockNumber)
      let levW : Nat := ((level + 1) % (W64 : Int)).toNat
      let mW : Nat := (m % (W64 : Int)).toNat
      let neighborSize : Nat := levW * mW % W64 * 2 % W64 * 4 % W64
      if neighborSize / 4 ≠ levW * mW % W64 * 2 % W64 then (0, true)
      else
        let totalSize : Nat := (SIZEOF_HNSW_NODE_DATA + vectorSize + neighborSize) % W64
        if totalSize < SIZEOF_HNSW_NODE_DATA ∨ totalSize < vectorSize ∨
            totalSize < neighborSize then (0, true)
        else
          let result : Nat := MAXALIGN64 totalSize
          if result < totalSize then (0, true) else (result, false)

/--
The node-size handling on the insert path of `hnswInsertNode`: the overflow
check right after `hnswComputeNodeSizeSafe` (`if (overflow || nodeSize == 0)`
→ error) and the free-space check before `PageAddItem`
(`if (PageGetFreeSpace(page) < nodeSize)` → error).  `none` models a raised
error; `some size` a node of `size` bytes actually written to the page.
-/
def hnswInsertNodeSizeGuard (dim level m : Int) (freeSpace : Nat) : Option Nat :=
  let (nodeSize, overflow) := hnswComputeNodeSizeSafe dim level m
  if overflow ∨ nodeSize = 0 then none
  else if freeSpace < nodeSize then none
  else some nodeSize

/-- The exact (unwrapped, mathematical) node size
`MAXALIGN(sizeof(HnswNodeData) + dim*4 + (level+1)*m*2*4)` for in-range
arguments, computed over `ℕ` with no modulus: the reference value against
which truncation is judged. -/
def exactNodeSize (dim level m : Nat) : Nat :=
  (SIZEOF_HNSW_NODE_DATA + dim * 4 + (level + 1) * m * 2 * 4 + 7) / 8 * 8

/--
`hnswoptions(reloptions, validate)` with `validate = true`: the explicit
range checks performed after `build_reloptions` has filled in the three
integer options.  The checks run in source order and the first failing one
raises; on success the parsed options are returned unmodified.  `Except`
models `ereport(ERROR, ...)` as `.error`.
-/
def hnswValidateOptions (m ef_construction ef_search : Int) :
    Except String (Int × Int × Int) :=
  if m < HNSW_MIN_M ∨ m > HNSW_MAX_M then
    .error "hnsw: parameter m must be between"
  else if ef_construction < HNSW_MIN_EF_CONSTRUCTION ∨
      ef_construction > HNSW_MAX_EF_CONSTRUCTION then
    .error "hnsw: parameter ef_construction must be between"
  else if ef_search < HNSW_MIN_EF_SEARCH ∨ ef_search > HNSW_MAX_EF_SEARCH then
    .error "hnsw: parameter ef_search must be between"
  else if ef_construction < m then
    .error "hnsw: parameter ef_construction must be >= m"
  else if ef_search < m then
    .error "hnsw: parameter ef_search must be >= m"
  else
    .ok (m, ef_construction, ef_search)

/-! ## Graph state -/

/-- The on-disk record `HnswNodeData` plus its variable-length tail:
`heapTid` is the heap `ItemPointerData` (opaque row id, modelled as `Nat`),
`level`/`dim` the fixed fields, `counts` the 16-entry `neighborCount` array,
`vec` the `float4 vector[dim]` payload (abstracted to `ℚ` components) and
`slots` the per-level `BlockNumber neighbors[level+1][m*2]` table. -/
structure HnswNodeRec where
  heapTid : Nat
  level : Int
  dim : Int
  counts : List Int
  vec : List ℚ
  slots : List (List Nat)
  deriving Repr, DecidableEq

/-- One page of the index relation.  `empty` covers new pages, truly empty
pages, and block 0 (the meta page stores its record outside the line-pointer
area, so `PageIsEmpty` holds for it); `node dead rec` is a page holding one
node item, with `dead` the `ItemIdIsDead` flag. -/
inductive HnswPage where
  | empty : HnswPage
  | node (dead : Bool) (rec : HnswNodeRec) : HnswPage
  deriving Repr, DecidableEq

/-- The meta-page record `HnswMetaPageData` (magic, version and `ml` are not
consulted by any modelled operation and are omitted). -/
structure HnswMetaRec where
  entryPoint : Nat
  entryLevel : Int
  maxLevel : Int
  m : Int
  efConstruction : Int
  efSearch : Int
  insertedVectors : Int
  deriving Repr, DecidableEq

/-- The index relation: the meta record (block 0) plus all pages, indexed by
block number (`pages.getD 0` is block 0 and is `.empty` in any state built by
the modelled operations). -/
structure HnswState where
  meta : HnswMetaRec
  pages : List HnswPage
  deriving Repr, DecidableEq

/-- `RelationGetNumberOfBlocks`. -/
def nblocks (st : HnswState) : Nat := st.pages.length

/-- Read page `b` (all modelled reads are guarded by
`hnswValidateBlockNumber`, so the out-of-range default is never observable). -/
def getPage (st : HnswState) (b : Nat) : HnswPage := st.pages.getD b .empty

/-- Replace page `b`. -/
def setPage (st : HnswState) (b : Nat) (p : HnswPage) : HnswState :=
  { st with pages := st.pages.set b p }

/-- `hnswValidateBlockNumber(blkno, index)`. -/
def validBlock (st : HnswState) (b : Nat) : Bool :=
  b ≠ INVALID_BLOCK && b < nblocks st

/-- `hnswValidateLevelSafe(level)` (for the `Int`-typed `level` field). -/
def validLevel (l : Int) : Bool := 0 ≤ l && l < 16

/-- `hnswValidateNeighborCount(neighborCount, m, level)`: clamp to `[0, m*2]`
(when `m*2` is itself negative — corrupt `m` — the clamped value is negative
and every `for (i = 0; i < neighborCount; ...)` loop body is skipped, which
`Int.toNat` renders as 0). -/
def clampCount (c : Int) (m : Int) : Nat :=
  if c < 0 then 0 else if c > m * 2 then (m * 2).toNat else c.toNat

/-- `HnswGetNeighborsSafe(node, level, m)` viewed as the whole `m*2`-slot row
of the neighbor table at `level`. -/
def layerSlots (rec : HnswNodeRec) (level : Nat) : List Nat :=
  rec.slots.getD level []

/-- The first `clamp(neighborCount[level])` slots of the neighbor row: the
portion every modelled loop iterates over. -/
def layerPrefix (rec : HnswNodeRec) (level : Nat) (m : Int) : List Nat :=
  (layerSlots rec level).take (clampCount (rec.counts.getD level 0) m)

/-! ## Deletion: `hnswRemoveNodeFromNeighbor` and the bulk-delete path -/

/--
`hnswRemoveNodeFromNeighbor(index, neighborBlkno, nodeBlkno, level)`:
remove `nodeBlkno` from the `level`-layer neighbor list of the node at
`neighborBlkno`.  Mirrors the source checks in order: block validation,
level-argument validation, `PageIsEmpty`, neighbor-level validation; then the
first occurrence of `nodeBlkno` among the first `clamp(count)` slots is
removed by left-shifting the tail, the freed slot becomes
`InvalidBlockNumber`, and the *raw* `neighborCount[level]` field is
decremented.  `m` is read from the meta page.
-/
def removeNodeFromNeighbor (st : HnswState) (neighborBlkno nodeBlkno : Nat)
    (level : Nat) : HnswState :=
  if ¬ validBlock st neighborBlkno then st
  else if ¬ level < HNSW_MAX_LEVEL then st
  else match getPage st neighborBlkno with
    | .empty => st
    | .node dead rec =>
      if ¬ validLevel rec.level then st
      else
        let m := st.meta.m
        let slots := layerSlots rec level
        let cnt := clampCount (rec.counts.getD level 0) m
        let pre := slots.take cnt
        if nodeBlkno ∈ pre then
          let newRow := (pre.erase nodeBlkno ++ [INVALID_BLOCK]) ++ slots.drop cnt
          let rec' := { rec with
            slots := rec.slots.set level newRow,
            counts := rec.counts.set level (rec.counts.getD level 0 - 1) }
          setPage st neighborBlkno (.node dead rec')
        else st

/--
One slot of the back-link removal loop of `hnswbulkdelete` (its body at slot
`i` of layer `level`): the slot value is re-read from the current state (the
C `neighbors` pointer aliases the page), and
`hnswRemoveNodeFromNeighbor` is called when the slot is a valid block.
-/
def bulkRemoveSlot (st : HnswState) (ub level i : Nat) : HnswState :=
  match getPage st ub with
  | .node _ rec =>
    let b := (layerSlots rec level).getD i INVALID_BLOCK
    if b ≠ INVALID_BLOCK ∧ validBlock st b then
      removeNodeFromNeighbor st b ub level
    else st
  | _ => st

/-- The inner `for (i = 0; i < neighborCount; i++)` loop of the back-link
removal at one layer; `neighborCount` is clamped once, at loop entry, from
the state at that moment. -/
def bulkRemoveLevel (st : HnswState) (ub level : Nat) : HnswState :=
  match getPage st ub with
  | .node _ rec =>
    let cnt := clampCount (rec.counts.getD level 0) st.meta.m
    (List.range cnt).foldl (fun s i => bulkRemoveSlot s ub level i) st
  | _ => st

/-- The outer `for (level = 0; level <= node->level; level++)` back-link
removal loop of `hnswbulkdelete`. -/
def bulkRemoveAll (st : HnswState) (ub : Nat) : HnswState :=
  match getPage st ub with
  | .node _ rec =>
    (List.range (rec.level.toNat + 1)).foldl (fun s l => bulkRemoveLevel s ub l) st
  | _ => st

/--
The entry-point replacement scan of `hnswbulkdelete` (the body of
`if (meta->entryPoint == blkno)`): scan the deleted node's layers from
`node->level` down to 0 and, within a layer, its first `clamp(count)` slots
in order; the first slot that is a valid block whose page is non-empty and
whose node has a valid level becomes the new entry point, with `entryLevel`
set to that node's own level.  Returns `some (block, level)` or `none`.
-/
def findReplacementEntry (st : HnswState) (rec : HnswNodeRec) : Option (Nat × Int) :=
  ((List.range (rec.level.toNat + 1)).reverse.flatMap
      (fun l => layerPrefix rec l st.meta.m)).findSome?
    (fun b =>
      if b ≠ INVALID_BLOCK ∧ validBlock st b then
        match getPage st b with
        | .node _ nrec => if validLevel nrec.level then some (b, nrec.level) else none
        | .empty => none
      else none)

/-- The meta update performed by the entry-point replacement: install the
replacement, or mark the entry invalid (`InvalidBlockNumber` / `-1`) when no
valid neighbor was found. -/
def bulkEntryReplace (st : HnswState) (ub : Nat) : HnswMetaRec :=
  if st.meta.entryPoint = ub then
    match getPage st ub with
    | .node _ rec =>
      match findReplacementEntry st rec with
      | some (b, l) => { st.meta with entryPoint := b, entryLevel := l }
      | none => { st.meta with entryPoint := INVALID_BLOCK, entryLevel := -1 }
    | .empty => st.meta
  else st.meta

/-- `ItemIdSetDead` on the single item of page `ub`. -/
def markDead (st : HnswState) (ub : Nat) : HnswState :=
  match getPage st ub with
  | .node _ rec => setPage st ub (.node true rec)
  | .empty => st

/--
The single-node deletion performed by `hnswbulkdelete` for a node the
callback condemns (lines 603–705 of `hnsw_am.c`, for the one live item at
block `ub`): skip dead/invalid-level nodes; otherwise remove back-links at
every layer, replace the entry point if the node was it, mark the item dead,
and decrement `insertedVectors` with a floor of 0.
-/
def singleNodeBulkDelete (st : HnswState) (ub : Nat) : HnswState :=
  match getPage st ub with
  | .node dead rec =>
    if dead then st
    else if ¬ validLevel rec.level then st
    else
      let st1 := bulkRemoveAll st ub
      let meta1 := bulkEntryReplace st1 ub
      let st2 := markDead { st1 with meta := meta1 } ub
      { st2 with meta := { st2.meta with
          insertedVectors :=
            if st2.meta.insertedVectors - 1 < 0 then 0
            else st2.meta.insertedVectors - 1 } }
  | .empty => st

/-! ## Search (`hnswSearch`)

The distance function is an oracle parameter `aDistFn` (strategy, vec1, vec2 ↦
distance): the float arithmetic of `hnswComputeDistance` is not
kernel-computable, but every *call* to it is modelled, and its strategy
argument is recorded in the `strats` trace.  The `reads` trace records each
`ReadBuffer` block in order.  The greedy `do … while (foundBetter)` loop has
no syntactic bound in the source (it terminates because the distance strictly
decreases); `fuel` bounds its unrolling, and every theorem below holds for
all fuel values. -/

/-- Distance oracle: strategy, vector 1, vector 2 ↦ distance. -/
abbrev aDistFn := Int → List ℚ → List ℚ → ℚ

/-- Output of `hnswSearch`: the `*results`/`*distances`/`*resultCount` out
parameters plus the two instrumentation traces. -/
structure SearchOut where
  results : List Nat
  dists : List ℚ
  count : Nat
  reads : List Nat
  strats : List Int
  deriving Repr, DecidableEq

/-- One pass of the greedy `do … while (foundBetter)` body at layer `level`:
read the current node, compute its distance, and scan its `level`-layer
neighbors for a strictly closer one (updating the running best within the
scan).  Returns (new current, foundBetter, reads, strats); the early `break`s
of the source leave `foundBetter` false. -/
def greedyPass (d : aDistFn) (st : HnswState) (query : List ℚ) (strategy : Int)
    (level : Nat) (current : Nat) : Nat × Bool × List Nat × List Int :=
  if ¬ validBlock st current then (current, false, [], [])
  else match getPage st current with
  | .empty => (current, false, [current], [])
  | .node _ rec =>
    if ¬ validLevel rec.level then (current, false, [current], [])
    else
      let currentDist := d strategy query rec.vec
      if (level : Int) ≤ rec.level then
        let pre := layerPrefix rec level st.meta.m
        let scan := pre.foldl
          (fun (acc : Nat × ℚ × Bool × List Nat × List Int) b =>
            let (cur, cd, fnd, rds, strs) := acc
            if b = INVALID_BLOCK then acc
            else if ¬ validBlock st b then acc
            else match getPage st b with
              | .empty => (cur, cd, fnd, rds ++ [b], strs)
              | .node _ nrec =>
                let nd := d strategy query nrec.vec
                if nd < cd then (b, nd, true, rds ++ [b], strs ++ [strategy])
                else (cur, cd, fnd, rds ++ [b], strs ++ [strategy]))
          (current, currentDist, false, [], [])
        (scan.1, scan.2.2.1, current :: scan.2.2.2.1, strategy :: scan.2.2.2.2)
      else (current, false, [current], [strategy])

/-- The greedy loop at one layer, iterated while `foundBetter` holds, up to
`fuel` passes. -/
def greedyLevelLoop (d : aDistFn) (st : HnswState) (query : List ℚ)
    (strategy : Int) (level : Nat) :
    Nat → Nat → Nat × List Nat × List Int
  | 0, current => (current, [], [])
  | fuel + 1, current =>
    let (c1, found, r, s) := greedyPass d st query strategy level current
    if found then
      let (c2, r', s') := greedyLevelLoop d st query strategy level fuel c1
      (c2, r ++ r', s ++ s')
    else (c1, r, s)

/-- Phase A: `for (level = currentLevel; level > 0; level--)` greedy descent
through the upper layers. -/
def greedyDescend (d : aDistFn) (st : HnswState) (query : List ℚ)
    (strategy : Int) (fuel startLevel current : Nat) :
    Nat × List Nat × List Int :=
  ((List.range startLevel).reverse.map (· + 1)).foldl
    (fun (acc : Nat × List Nat × List Int) level =>
      let (c, r, s) := greedyLevelLoop d st query strategy level fuel acc.1
      (c, acc.2.1 ++ r, acc.2.2 ++ s))
    (current, [], [])

/-- Accumulator of the layer-0 exploration: the co-indexed
`candidates`/`candidateDists` arrays (as pairs), the visited set, and the
traces. -/
structure CandAcc where
  cands : List (Nat × ℚ)
  visited : List Nat
  reads : List Nat
  strats : List Int
  deriving Repr, DecidableEq

/-- The worst-candidate scan (`worstIdx`/`worstDist`, starting at index 0 and
scanning `l = 1 … min(candidateCount, efSearch) - 1` for a strictly larger
distance). -/
def findWorstIdx (cands : List (Nat × ℚ)) (efSearch : Nat) : Nat :=
  (List.range (min cands.length efSearch)).foldl
    (fun w l =>
      if l = 0 then w
      else if (cands.getD w (0, 0)).2 < (cands.getD l (0, 0)).2 then l else w)
    0

/-- Processing of one layer-0 neighbor slot `b` of the current candidate:
skip sentinel, invalid and visited blocks; read the page; compute the
distance; mark visited; then admit into the candidate pool (append below
`efSearch`, else replace the worst if strictly better). -/
def layer0Step (d : aDistFn) (st : HnswState) (query : List ℚ) (strategy : Int)
    (efSearch : Nat) (acc : CandAcc) (b : Nat) : CandAcc :=
  if b = INVALID_BLOCK then acc
  else if ¬ validBlock st b then acc
  else if b ∈ acc.visited then acc
  else match getPage st b with
    | .empty => { acc with reads := acc.reads ++ [b] }
    | .node _ nrec =>
      let nd := d strategy query nrec.vec
      let acc' : CandAcc :=
        { acc with
          reads := acc.reads ++ [b],
          strats := acc.strats ++ [strategy],
          visited := acc.visited ++ [b] }
      if acc'.cands.length < efSearch then
        { acc' with cands := acc'.cands ++ [(b, nd)] }
      else
        let w := findWorstIdx acc'.cands efSearch
        if nd < (acc'.cands.getD w (0, 0)).2 then
          { acc' with cands := acc'.cands.set w (b, nd) }
        else acc'

/-- The layer-0 exploration loop
`for (i = 0; i < candidateCount && candidateCount < efSearch; i++)`:
process candidate `i`'s layer-0 neighbor list.  `fuel` only bounds the
recursion (`i` strictly increases and is bounded by `efSearch`). -/
def layer0Loop (d : aDistFn) (st : HnswState) (query : List ℚ) (strategy : Int)
    (efSearch : Nat) : Nat → Nat → CandAcc → CandAcc
  | 0, _, acc => acc
  | fuel + 1, i, acc =>
    if i < acc.cands.length ∧ acc.cands.length < efSearch then
      let cb := (acc.cands.getD i (INVALID_BLOCK, 0)).1
      let acc' :=
        if ¬ validBlock st cb then acc
        else match getPage st cb with
          | .empty => { acc with reads := acc.reads ++ [cb] }
          | .node _ rec =>
            if ¬ validLevel rec.level then { acc with reads := acc.reads ++ [cb] }
            else
              (layerPrefix rec 0 st.meta.m).foldl
                (layer0Step d st query strategy efSearch)
                { acc with reads := acc.reads ++ [cb] }
      layer0Loop d st query strategy efSearch fuel (i + 1) acc'
    else acc

/-- The argmin scan of the final selection sort: position of the smallest
distance among index positions `i … count - 1` (first minimum wins, seeded at
`i`). -/
def selMinIdx (cands : List (Nat × ℚ)) (indices : List Nat) (i : Nat) : Nat :=
  (List.range indices.length).foldl
    (fun best j =>
      if j ≤ i then best
      else if (cands.getD (indices.getD j 0) (0, 0)).2 <
          (cands.getD (indices.getD best 0) (0, 0)).2 then j
      else best)
    i

/-- The final partial selection sort over the index array and the extraction
of the best `min(k, candidateCount)` pairs in ascending distance order. -/
def topKSelect (cands : List (Nat × ℚ)) (k : Nat) : List (Nat × ℚ) :=
  let kk := min k cands.length
  let final := (List.range kk).foldl
    (fun (ind : List Nat) i =>
      let mi := selMinIdx cands ind i
      if mi ≠ i then (ind.set i (ind.getD mi 0)).set mi (ind.getD i 0) else ind)
    (List.range cands.length)
  (List.range kk).map (fun i => cands.getD (final.getD i 0) (0, 0))

/--
`hnswSearch(index, metaPage, query, dim, strategy, efSearch, k, …)`.
Phase 0: the defensive `entryPoint == InvalidBlockNumber` early return.
Phase A: greedy descent from the entry point (an out-of-range `entryLevel` is
reset to 0 with a warning).  Phase B: layer-0 exploration seeded with the
descent endpoint, followed by the top-`k` selection.
-/
def hnswSearchM (d : aDistFn) (fuel : Nat) (st : HnswState) (query : List ℚ)
    (strategy : Int) (efSearch k : Nat) : SearchOut :=
  if st.meta.entryPoint = INVALID_BLOCK then ⟨[], [], 0, [], []⟩
  else
    let startLevel : Nat :=
      if st.meta.entryLevel < 0 ∨ (HNSW_MAX_LEVEL : Int) ≤ st.meta.entryLevel then 0
      else st.meta.entryLevel.toNat
    let (current, rdsA, strsA) :=
      greedyDescend d st query strategy fuel startLevel st.meta.entryPoint
    if ¬ validBlock st current then ⟨[], [], 0, rdsA, strsA⟩
    else match getPage st current with
    | .empty => ⟨[], [], 0, rdsA ++ [current], strsA⟩
    | .node _ rec =>
      if ¬ validLevel rec.level then ⟨[], [], 0, rdsA ++ [current], strsA⟩
      else
        let d0 := d strategy query rec.vec
        let acc0 : CandAcc :=
          ⟨[(current, d0)], [current], rdsA ++ [current], strsA ++ [strategy]⟩
        let acc := layer0Loop d st query strategy efSearch (efSearch + 1) 0 acc0
        let top := topKSelect acc.cands k
        ⟨top.map Prod.fst, top.map Prod.snd, min k acc.cands.length,
          acc.reads, acc.strats⟩

/-! ## Insert (`hnswInsertNode`) -/

/-- `FLT_MAX`, as an exact rational (used by the pruning pass to mark invalid
neighbors). -/
def FLT_MAX_Q : ℚ := 340282346638528859811704183484516925440

/-- `PageGetFreeSpace` of a freshly initialized node page:
`BLCKSZ - SizeOfPageHeaderData - sizeof(ItemIdData)`. -/
def hnswPageFreeSpace : Nat := BLCKSZ - 24 - 4

/-- One pass of the bounded greedy descent of `hnswInsertNode` (step 3): read
the running best entry, and when its level reaches the new node's level,
compute the L2 distance to it (strategy literal `1`) and scan its neighbors
at layer `level` for improvements.  Returns (best entry, improved,
strategies). -/
def insertGreedyPass (d : aDistFn) (st : HnswState) (vector : List ℚ)
    (level : Nat) (bestEntry : Nat) : Nat × Bool × List Int :=
  if ¬ validBlock st bestEntry then (bestEntry, false, [])
  else match getPage st bestEntry with
  | .empty => (bestEntry, false, [])
  | .node _ erec =>
    if ¬ validLevel erec.level then (bestEntry, false, [])
    else if (level : Int) ≤ erec.level then
      let bestDist := d 1 vector erec.vec
      let scan := (layerPrefix erec level st.meta.m).foldl
        (fun (acc : Nat × ℚ × Bool × List Int) b =>
          let (be, bd, imp, strs) := acc
          if b = INVALID_BLOCK then acc
          else if ¬ b < nblocks st then acc
          else match getPage st b with
            | .empty => acc
            | .node _ nrec =>
              let nd := d 1 vector nrec.vec
              if nd < bd then (b, nd, true, strs ++ [1])
              else (be, bd, imp, strs ++ [1]))
        (bestEntry, bestDist, false, [])
      (scan.1, scan.2.2.1, 1 :: scan.2.2.2)
    else (bestEntry, false, [])

/-- The `while (improved && iterations < maxIterations)` loop of step 3
(`maxIterations = 10`). -/
def insertGreedyLoop (d : aDistFn) (st : HnswState) (vector : List ℚ)
    (level : Nat) : Nat → Nat → Nat × List Int
  | 0, be => (be, [])
  | n + 1, be =>
    let (be1, improved, tr) := insertGreedyPass d st vector level be
    if improved then
      let (be2, tr2) := insertGreedyLoop d st vector level n be1
      (be2, tr ++ tr2)
    else (be1, tr)

/-- Argmin position (by distance, strict improvement, first minimum kept)
among positions `i … len - 1` of a candidate array. -/
def argminFrom (arr : List (Nat × ℚ)) (i : Nat) : Nat :=
  (List.range arr.length).foldl
    (fun best j =>
      if j ≤ i then best
      else if (arr.getD j (0, 0)).2 < (arr.getD best (0, 0)).2 then j else best)
    i

/-- The partial selection sort of step 5a: sort the first `selectedCount`
candidate pairs into ascending distance order (swapping whole pairs) and
return them. -/
def linkSelectSort (cands : List (Nat × ℚ)) (selectedCount : Nat) :
    List (Nat × ℚ) :=
  let sorted := (List.range selectedCount).foldl
    (fun (arr : List (Nat × ℚ)) idx =>
      let bi := argminFrom arr idx
      if bi ≠ idx then
        (arr.set idx (arr.getD bi (0, 0))).set bi (arr.getD idx (0, 0))
      else arr)
    cands
  sorted.take selectedCount

/-- `insertPos`: the first `InvalidBlockNumber` slot below the clamped count,
or the clamped count itself. -/
def findInsertPos (row : List Nat) (clamped : Nat) : Nat :=
  match (List.range clamped).find?
      (fun j => row.getD j INVALID_BLOCK = INVALID_BLOCK) with
  | some j => j
  | none => clamped

/-- The distance/index array construction of the pruning pass: entry `j`
holds the distance from the pruned neighbor `v` to its `j`-th listed
neighbor (`selectedDistances[idx]` for the new node itself, `FLT_MAX` for
invalid or empty blocks) and the original slot index.  The loop `break`s at
the first `InvalidBlockNumber` slot, leaving later entries at their
zero-initialized allocation values.  Also returns the strategies of the
distance calls made. -/
def pruneDistsBuild (d : aDistFn) (st : HnswState) (row : List Nat)
    (vvec : List ℚ) (blkno : Nat) (selDist : ℚ) (pruneCount : Nat) :
    List (ℚ × Nat) × List Int :=
  let out := (List.range pruneCount).foldl
    (fun (acc : List (ℚ × Nat) × Bool × List Int) j =>
      let (arr, broken, trace) := acc
      if broken then acc
      else
        let slot := row.getD j INVALID_BLOCK
        if slot = INVALID_BLOCK then (arr, true, trace)
        else if slot = blkno then (arr.set j (selDist, j), false, trace)
        else if ¬ validBlock st slot then (arr.set j (FLT_MAX_Q, j), false, trace)
        else match getPage st slot with
          | .empty => (arr.set j (FLT_MAX_Q, j), false, trace)
          | .node _ orec =>
            (arr.set j (d 1 vvec orec.vec, j), false, trace ++ [1]))
    (List.replicate pruneCount ((0 : ℚ), (0 : Nat)), false, [])
  (out.1, out.2.2)

/-- The exchange sort of the pruning pass (ascending by distance, swapping
distance and index entries together). -/
def pruneSort (arr : List (ℚ × Nat)) : List (ℚ × Nat) :=
  (List.range arr.length).foldl
    (fun a j =>
      (List.range a.length).foldl
        (fun a2 k2 =>
          if j + 1 ≤ k2 then
            if (a2.getD k2 (0, 0)).1 < (a2.getD j (0, 0)).1 then
              (a2.set j (a2.getD k2 (0, 0))).set k2 (a2.getD j (0, 0))
            else a2
          else a2)
        a)
    arr

/-- The in-place rewrite `neighbors[j] = neighbors[indices[j]]` of the
pruning pass; the reads see earlier writes of the same loop, exactly as the
aliased C arrays do. -/
def pruneRewriteRow (row : List Nat) (sorted : List (ℚ × Nat)) (width : Nat) :
    List Nat :=
  (List.range width).foldl
    (fun r j => r.set j (r.getD (sorted.getD j (0, 0)).2 INVALID_BLOCK))
    row

/-- Step 5c for one selected neighbor `nb` at layer `currentLevel`: add the
new node (block `blkno`) to `nb`'s neighbor list in the first free slot (or
at the end, below `m*2`), then prune when the (raw) count exceeds `m*2`.
Operates on pages only; `meta` is read-only.  Returns the updated pages and
the strategies of the distance calls made. -/
def linkOneNeighbor (d : aDistFn) (meta : HnswMetaRec) (pages : List HnswPage)
    (blkno currentLevel : Nat) (nb : Nat) (selDist : ℚ) :
    List HnswPage × List Int :=
  let st : HnswState := ⟨meta, pages⟩
  match getPage st nb with
  | .empty => (pages, [])
  | .node dead vrec =>
    if ¬ validLevel vrec.level then (pages, [])
    else
      let m := meta.m
      let row := layerSlots vrec currentLevel
      let raw := vrec.counts.getD currentLevel 0
      let clamped := clampCount raw m
      let insertPos := findInsertPos row clamped
      let (row1, raw1) :=
        if (insertPos : Int) < m * 2 then
          (row.set insertPos blkno,
            if clamped ≤ insertPos then (insertPos : Int) + 1 else raw)
        else (row, raw)
      if raw1 > m * 2 then
        let pruneCount := clampCount raw1 m
        let (arr, trace) := pruneDistsBuild d st row1 vrec.vec blkno selDist pruneCount
        let sorted := pruneSort arr
        let row2 := pruneRewriteRow row1 sorted (m * 2).toNat
        let vrec2 := { vrec with
          slots := vrec.slots.set currentLevel row2,
          counts := vrec.counts.set currentLevel (m * 2) }
        ((pages.set nb (.node dead vrec2)), trace)
      else
        let vrec1 := { vrec with
          slots := vrec.slots.set currentLevel row1,
          counts := vrec.counts.set currentLevel raw1 }
        ((pages.set nb (.node dead vrec1)), [])

/-- The per-layer body of step 5: search for candidates with
`strategy = 1, ef = k = efConstruction`, select the `m` nearest, and link
the new node and each selected neighbor bidirectionally.  Errors when the
new node's page is unexpectedly empty. -/
def linkLevel (d : aDistFn) (fuel : Nat) (meta : HnswMetaRec)
    (pages : List HnswPage) (blkno : Nat) (vector : List ℚ)
    (currentLevel : Nat) : Except String (List HnswPage) × List Int :=
  let out := hnswSearchM d fuel ⟨meta, pages⟩ vector 1
    meta.efConstruction.toNat meta.efConstruction.toNat
  let cands := out.results.zip out.dists
  let selectedCount := min meta.m.toNat cands.length
  let selected := linkSelectSort cands selectedCount
  match getPage ⟨meta, pages⟩ blkno with
  | .empty => (.error "hnsw: newly inserted page is empty", out.strats)
  | .node _ _ =>
    let step := (List.range selectedCount).foldl
      (fun (acc : List HnswPage × List Int) idx =>
        let (pgs, trace) := acc
        let sel := selected.getD idx (0, 0)
        let pgs1 :=
          if (idx : Int) < meta.m then
            match getPage ⟨meta, pgs⟩ blkno with
            | .node dd nrec =>
              let nrow := (layerSlots nrec currentLevel).set idx sel.1
              pgs.set blkno (.node dd { nrec with
                slots := nrec.slots.set currentLevel nrow,
                counts := nrec.counts.set currentLevel ((idx : Int) + 1) })
            | .empty => pgs
          else pgs
        let (pgs2, tr2) := linkOneNeighbor d meta pgs1 blkno currentLevel sel.1 sel.2
        (pgs2, trace ++ tr2))
      (pages, [])
    (.ok step.1, out.strats ++ step.2)

/-- Step 5: link the new node at each layer from `min(level, entryLevel)`
down to 0, threading the pages and accumulating the distance-strategy
trace. -/
def linkPhase (d : aDistFn) (fuel : Nat) (meta : HnswMetaRec)
    (pages : List HnswPage) (blkno : Nat) (vector : List ℚ) (level : Nat) :
    Except String (List HnswPage) × List Int :=
  if blkno = INVALID_BLOCK ∨ ¬ blkno < pages.length then
    (.error "hnsw: invalid block number after insert", [])
  else
    let maxLevel := min level meta.entryLevel.toNat
    ((List.range (maxLevel + 1)).reverse).foldl
      (fun (acc : Except String (List HnswPage) × List Int) currentLevel =>
        match acc with
        | (.error e, trace) => (.error e, trace)
        | (.ok pgs, trace) =>
          let (r, tr) := linkLevel d fuel meta pgs blkno vector currentLevel
          (r, trace ++ tr))
      (.ok pages, [])

/--
`hnswInsertNode(index, metaPage, vector, dim, heapPtr)`.  The level drawn by
`hnswGetRandomLevel` is the parameter `drawnLevel` (the PRNG is external);
the code clamps it to `HNSW_MAX_LEVEL - 1`.  Steps: overflow-checked size
computation (error on overflow), node initialization, bounded greedy descent
(whose result is unused by the remaining steps), relation extension with a
free-space check (error when the node does not fit), bidirectional linking,
and the final meta update (entry point, `insertedVectors`, `maxLevel`).
Returns the final state (or the raised error) and the trace of strategies of
every distance computation performed.
-/
def hnswInsertNodeM (d : aDistFn) (fuel : Nat) (st : HnswState)
    (vector : List ℚ) (dim : Int) (heapTid : Nat) (drawnLevel : Nat) :
    Except String HnswState × List Int :=
  let level : Nat := min drawnLevel (HNSW_MAX_LEVEL - 1)
  let (nodeSize, overflow) := hnswComputeNodeSizeSafe dim (level : Int) st.meta.m
  if overflow ∨ nodeSize = 0 then
    (.error "hnsw: node size calculation overflow", [])
  else
    let newRec : HnswNodeRec :=
      { heapTid := heapTid, level := (level : Int), dim := dim,
        counts := List.replicate HNSW_MAX_LEVEL 0, vec := vector,
        slots := List.replicate (level + 1)
          (List.replicate (st.meta.m * 2).toNat INVALID_BLOCK) }
    let trA :=
      if st.meta.entryPoint ≠ INVALID_BLOCK ∧ 0 < level then
        (insertGreedyLoop d st vector level 10 st.meta.entryPoint).2
      else []
    let blkno := nblocks st
    if hnswPageFreeSpace < nodeSize then
      (.error "hnsw: not enough space for new node", trA)
    else
      let pages1 := st.pages ++ [.node false newRec]
      let linked :=
        if st.meta.entryPoint ≠ INVALID_BLOCK ∧ 0 ≤ st.meta.entryLevel then
          linkPhase d fuel st.meta pages1 blkno vector level
        else (.ok pages1, [])
      match linked with
      | (.error e, trB) => (.error e, trA ++ trB)
      | (.ok pages2, trB) =>
        let meta0 := st.meta
        if meta0.entryPoint = INVALID_BLOCK ∨ (level : Int) > meta0.entryLevel then
          if validBlock ⟨meta0, pages2⟩ blkno then
            let meta1 := { meta0 with
              entryPoint := blkno, entryLevel := (level : Int),
              insertedVectors := meta0.insertedVectors + 1,
              maxLevel := if (level : Int) > meta0.maxLevel then (level : Int)
                else meta0.maxLevel }
            (.ok ⟨meta1, pages2⟩, trA ++ trB)
          else (.error "hnsw: invalid block number for entry point", trA ++ trB)
        else
          let meta1 := { meta0 with
            insertedVectors := meta0.insertedVectors + 1,
            maxLevel := if (level : Int) > meta0.maxLevel then (level : Int)
              else meta0.maxLevel }
          (.ok ⟨meta1, pages2⟩, trA ++ trB)

/-! ## Scan lifecycle (`hnswbeginscan` / `hnswrescan` / `hnswgettuple`) -/

/-- `HnswScanOpaqueData`: the per-scan state. -/
structure HnswScanOpaque where
  efSearch : Int
  strategy : Int
  queryVector : Option (List ℚ)
  k : Int
  firstCall : Bool
  resultCount : Nat
  results : List Nat
  dists : List ℚ
  currentResult : Nat
  deriving Repr, DecidableEq

/-- `hnswbeginscan`: allocate the scan state with defaults (`ef_search = 64`,
strategy 1, no query vector, `k = 0`). -/
def hnswbeginscanM : HnswScanOpaque :=
  { efSearch := 64, strategy := 1, queryVector := none, k := 0,
    firstCall := true, resultCount := 0, results := [], dists := [],
    currentResult := 0 }

/--
`hnswrescan(scan, keys, nkeys, orderbys, norderbys)`: reset the position,
take the strategy from the first order-by key, set `efSearch` from the
session GUC (when positive) or the meta default, clamp it to 100000, and —
only when an order-by argument is present and its vector extraction
succeeds — replace the stored query vector and set `k` from the session GUC
(default 10).  `orderArg` is the coerced first order-by datum (`none` models
a null datum or a failed extraction). -/
def hnswrescanM (so : HnswScanOpaque) (norderbys : Nat) (skStrategy : Int)
    (orderArg : Option (List ℚ)) (gucEfSearch : Int) (metaEfSearch : Int)
    (gucK : Int) : HnswScanOpaque :=
  let so := { so with firstCall := true, currentResult := 0, resultCount := 0 }
  let so := { so with strategy := if 0 < norderbys then skStrategy else 1 }
  let ef := if 0 < gucEfSearch then gucEfSearch else metaEfSearch
  let so := { so with efSearch := if 100000 < ef then 100000 else ef }
  match norderbys, orderArg with
  | n + 1, some q =>
    { so with queryVector := some q, k := if 0 < gucK then gucK else 10 }
  | _, _ => so

/-- Result of one `hnswgettuple` call: whether a tuple was returned, the heap
tid set in `scan->xs_heaptid` (when one was), the updated scan state, and
whether the graph search (`hnswSearch`) ran during the call. -/
structure GettupleOut where
  found : Bool
  heaptid : Option Nat
  so : HnswScanOpaque
  ranSearch : Bool
  deriving Repr, DecidableEq

/--
`hnswgettuple(scan, dir)`: on the first call, read the meta page and — when a
query vector is stored — run the search with the scan's strategy, `efSearch`
and `k`, storing the results; with no query vector return `false` at once
(leaving `firstCall` set and never invoking the search).  Then step through
the stored results, resolving the current block to its node's heap tid and
skipping invalid or empty pages (returning `false` for that call).
-/
def hnswgettupleM (d : aDistFn) (fuel : Nat) (st : HnswState)
    (so : HnswScanOpaque) : GettupleOut :=
  let (so, ran) :=
    if so.firstCall then
      match so.queryVector with
      | none => (so, false)
      | some q =>
        let out := hnswSearchM d fuel st q so.strategy so.efSearch.toNat so.k.toNat
        ({ so with
            results := out.results, dists := out.dists,
            resultCount := out.count, firstCall := false, currentResult := 0 },
          true)
    else (so, false)
  if so.firstCall ∧ so.queryVector = none then
    { found := false, heaptid := none, so := so, ranSearch := ran }
  else if so.currentResult < so.resultCount then
    let blk := so.results.getD so.currentResult 0
    if ¬ validBlock st blk then
      { found := false, heaptid := none,
        so := { so with currentResult := so.currentResult + 1 }, ranSearch := ran }
    else match getPage st blk with
      | .empty =>
        { found := false, heaptid := none,
          so := { so with currentResult := so.currentResult + 1 }, ranSearch := ran }
      | .node _ rec =>
        { found := true, heaptid := some rec.heapTid,
          so := { so with currentResult := so.currentResult + 1 }, ranSearch := ran }
  else
    { found := false, heaptid := none, so := so, ranSearch := ran }

/-! ## Distance formulas over ℝ (`hnswComputeDistance`)

The arithmetic of `hnswComputeDistance` (double accumulators over `float4`
components) is modelled over `ℝ`; rounding is the only difference.  The
strategy dispatch and the zero-norm branch are reproduced exactly. -/

/-- `Σ vᵢ·wᵢ` — the `dot_product` accumulator. -/
noncomputable def dotR (v w : List ℝ) : ℝ := (List.zipWith (· * ·) v w).sum

/-- `Σ vᵢ²` — the `norm1`/`norm2` accumulators before `sqrt`. -/
noncomputable def sqSumR (v : List ℝ) : ℝ := (v.map (fun x => x * x)).sum

/-- `‖v‖ = sqrt (Σ vᵢ²)` as computed by the cosine branch. -/
noncomputable def normR (v : List ℝ) : ℝ := Real.sqrt (sqSumR v)

/-- `hnswComputeDistance(vec1, vec2, dim, strategy)`: strategy 1 is L2,
strategy 2 cosine (with the `norm == 0` guard returning 2.0), strategy 3
negative inner product; any other strategy raises (`none`). -/
noncomputable def hnswComputeDistanceR (vec1 vec2 : List ℝ) (strategy : Int) :
    Option ℝ :=
  if strategy = 1 then
    some (Real.sqrt ((List.zipWith (fun a b => (a - b) * (a - b)) vec1 vec2).sum))
  else if strategy = 2 then
    let dot_product := dotR vec1 vec2
    let norm1 := Real.sqrt (sqSumR vec1)
    let norm2 := Real.sqrt (sqSumR vec2)
    if norm1 = 0 ∨ norm2 = 0 then some 2
    else some (1 - dot_product / (norm1 * norm2))
  else if strategy = 3 then
    some (-(dotR vec1 vec2))
  else none

/-! ## Level assignment (`hnswGetRandomLevel`) -/

/-- The C cast `(int) x` of a `double`: truncation toward zero. -/
noncomputable def truncToInt (x : ℝ) : ℤ := if 0 ≤ x then ⌊x⌋ else ⌈x⌉

open Classical in
/-- The accepted uniform draw: `r = random()/RAND_MAX` re-drawn
(`while (r == 0.0)`) until non-zero.  `u` is the stream of draws produced by
the PRNG; the loop terminates by the hypothesis that some draw is non-zero. -/
noncomputable def acceptedDraw (u : ℕ → ℝ) (h : ∃ n, u n ≠ 0) : ℝ :=
  u (Nat.find h)

open Classical in
/-- `hnswGetRandomLevel(ml)`: `level = (int)(-log(r) * ml)`, then clamp to
`[0, HNSW_MAX_LEVEL - 1]` (first the high side, then the low side). -/
noncomputable def hnswGetRandomLevel (ml : ℝ) (u : ℕ → ℝ) (h : ∃ n, u n ≠ 0) : ℤ :=
  let r := acceptedDraw u h
  let level := truncToInt (-(Real.log r) * ml)
  let level := if level > (HNSW_MAX_LEVEL : ℤ) - 1 then (HNSW_MAX_LEVEL : ℤ) - 1 else level
  if level < 0 then 0 else level

/-! ## Claim theorems -/

/-- **C9.** With validation enabled, option parsing raises an error if and
only if `m ∉ [2,128]`, or `ef_construction ∉ [4,10000]`, or
`ef_search ∉ [4,10000]`, or `ef_construction < m`, or `ef_search < m`; valid
inputs are returned unmodified. -/
theorem hnswoptions_validates_iff (m efc efs : Int) :
    ((hnswValidateOptions m efc efs).isOk = false ↔
      (m < 2 ∨ 128 < m ∨ efc < 4 ∨ 10000 < efc ∨ efs < 4 ∨ 10000 < efs ∨
        efc < m ∨ efs < m))
    ∧ (∀ v, hnswValidateOptions m efc efs = .ok v → v = (m, efc, efs)) := by
  constructor
  · unfold hnswValidateOptions HNSW_MIN_M HNSW_MAX_M HNSW_MIN_EF_CONSTRUCTION
      HNSW_MAX_EF_CONSTRUCTION HNSW_MIN_EF_SEARCH HNSW_MAX_EF_SEARCH
    split_ifs with h1 h2 h3 h4 h5 <;>
      simp_all [Except.isOk, Except.toBool] <;> omega
  · intro v hv
    unfold hnswValidateOptions at hv
    split_ifs at hv <;> simp_all

/-- Witness for **C9** at the default options `(16, 200, 64)`. -/
theorem hnswoptions_validates_iff_witness :
    hnswValidateOptions 16 200 64 = .ok (16, 200, 64) ∧
      ((16, 200, 64) : Int × Int × Int) = (16, 200, 64) :=
  ⟨rfl, (hnswoptions_validates_iff 16 200 64).2 (16, 200, 64) rfl⟩

/-- **C8.** If the meta page's entry point is the `InvalidBlockNumber`
sentinel, search returns an empty result — no result blocks, no distances,
count 0 — and reads no page at all. -/
theorem hnswSearch_empty_when_no_entry (d : aDistFn) (fuel : Nat)
    (st : HnswState) (query : List ℚ) (strategy : Int) (efSearch k : Nat)
    (h : st.meta.entryPoint = INVALID_BLOCK) :
    hnswSearchM d fuel st query strategy efSearch k =
      ⟨[], [], 0, [], []⟩ := by
  unfold hnswSearchM
  rw [if_pos h]

/-- An index state with no entry point (fresh meta, one empty page), used as
the concrete instance of C8/C10 witnesses. -/
def emptyEntryState : HnswState :=
  ⟨⟨INVALID_BLOCK, -1, -1, 16, 200, 64, 0⟩, [.empty]⟩

/-- Witness for **C8** on a concrete state with no entry point. -/
theorem hnswSearch_empty_when_no_entry_witness :
    emptyEntryState.meta.entryPoint = INVALID_BLOCK ∧
      hnswSearchM (fun _ _ _ => 0) 5 emptyEntryState [1] 1 64 10 =
        ⟨[], [], 0, [], []⟩ :=
  ⟨rfl, hnswSearch_empty_when_no_entry (fun _ _ _ => 0) 5 emptyEntryState
    [1] 1 64 10 rfl⟩

/-- **C10.** If `rescan` runs without order-by keys on a scan state holding
no query vector, the next `gettuple` returns `false`, does not run the graph
search, and leaves the scan state as `rescan` left it (the model is total:
no error is raised on this path). -/
theorem hnswgettuple_no_query_returns_false (d : aDistFn) (fuel : Nat)
    (st : HnswState) (so0 : HnswScanOpaque) (skStrategy : Int)
    (orderArg : Option (List ℚ)) (gucEfSearch metaEfSearch gucK : Int)
    (h : so0.queryVector = none) :
    (hnswgettupleM d fuel st
        (hnswrescanM so0 0 skStrategy orderArg gucEfSearch metaEfSearch gucK)).found
        = false ∧
      (hnswgettupleM d fuel st
        (hnswrescanM so0 0 skStrategy orderArg gucEfSearch metaEfSearch gucK)).ranSearch
        = false ∧
      (hnswgettupleM d fuel st
        (hnswrescanM so0 0 skStrategy orderArg gucEfSearch metaEfSearch gucK)).so
        = hnswrescanM so0 0 skStrategy orderArg gucEfSearch metaEfSearch gucK := by
  simp only [hnswrescanM, hnswgettupleM]
  simp [h]

/-- Witness for **C10**: a fresh `beginscan` state rescanned with no
order-bys. -/
theorem hnswgettuple_no_query_returns_false_witness :
    hnswbeginscanM.queryVector = none ∧
      (hnswgettupleM (fun _ _ _ => 0) 5 emptyEntryState
        (hnswrescanM hnswbeginscanM 0 1 none 0 64 0)).found = false :=
  ⟨rfl, (hnswgettuple_no_query_returns_false (fun _ _ _ => 0) 5 emptyEntryState
    hnswbeginscanM 1 none 0 64 0 rfl).1⟩

/-- **C6.** For vectors of equal dimension, the cosine distance (strategy 2)
is `1 − (a·b)/(‖a‖·‖b‖)` when both norms are non-zero, and exactly `2.0`
when either norm is zero. -/
theorem hnswComputeDistance_cosine (a b : List ℝ) (hab : a.length = b.length) :
    (normR a ≠ 0 → normR b ≠ 0 →
      hnswComputeDistanceR a b 2 = some (1 - dotR a b / (normR a * normR b)))
    ∧ ((normR a = 0 ∨ normR b = 0) → hnswComputeDistanceR a b 2 = some 2) := by
  have e : hnswComputeDistanceR a b 2 =
      if Real.sqrt (sqSumR a) = 0 ∨ Real.sqrt (sqSumR b) = 0 then some 2
      else some (1 - dotR a b / (Real.sqrt (sqSumR a) * Real.sqrt (sqSumR b))) := by
    unfold hnswComputeDistanceR
    norm_num
  unfold normR
  rw [e]
  constructor
  · intro h1 h2
    rw [if_neg]
    push_neg
    exact ⟨h1, h2⟩
  · intro h
    rw [if_pos h]

/-- Witness for **C6** at `a = b = [1]`. -/
theorem hnswComputeDistance_cosine_witness :
    normR [(1 : ℝ)] ≠ 0 ∧
      hnswComputeDistanceR [(1 : ℝ)] [(1 : ℝ)] 2 =
        some (1 - dotR [(1 : ℝ)] [(1 : ℝ)] / (normR [(1 : ℝ)] * normR [(1 : ℝ)])) :=
  have h : normR [(1 : ℝ)] ≠ 0 := by
    simp [normR, sqSumR]
  ⟨h, (hnswComputeDistance_cosine [(1 : ℝ)] [(1 : ℝ)] rfl).1 h h⟩

/-- **C7.** For every `ml` and every PRNG draw stream, the assigned level
lies in `[0, 15]`, the accepted uniform draw is the first non-zero draw (the
`while (r == 0.0)` re-draw loop), and the level is the clamp to `[0, 15]` of
the integer truncation of `−ln(U) · ml`. -/
theorem hnswGetRandomLevel_spec (ml : ℝ) (u : ℕ → ℝ) (h : ∃ n, u n ≠ 0) :
    (0 ≤ hnswGetRandomLevel ml u h ∧ hnswGetRandomLevel ml u h ≤ 15)
    ∧ (acceptedDraw u h ≠ 0 ∧ ∀ j < Nat.find h, u j = 0)
    ∧ hnswGetRandomLevel ml u h =
        max 0 (min 15 (truncToInt (-(Real.log (acceptedDraw u h)) * ml))) := by
  refine ⟨?_, ⟨Nat.find_spec h, ?_⟩, ?_⟩
  · unfold hnswGetRandomLevel HNSW_MAX_LEVEL
    dsimp only
    generalize truncToInt (-Real.log (acceptedDraw u h) * ml) = t
    split_ifs <;> omega
  · intro j hj
    have := Nat.find_min h hj
    simpa using this
  · unfold hnswGetRandomLevel HNSW_MAX_LEVEL
    dsimp only
    generalize truncToInt (-Real.log (acceptedDraw u h) * ml) = t
    split_ifs <;> omega

/-- Witness for **C7** with the constant draw stream `1` and `ml = 1`. -/
theorem hnswGetRandomLevel_spec_witness :
    (∃ n, (fun _ : ℕ => (1 : ℝ)) n ≠ 0) ∧
      ∀ h : ∃ n, (fun _ : ℕ => (1 : ℝ)) n ≠ 0,
        0 ≤ hnswGetRandomLevel 1 (fun _ => 1) h ∧
          hnswGetRandomLevel 1 (fun _ => 1) h ≤ 15 :=
  ⟨⟨0, one_ne_zero⟩, fun h => (hnswGetRandomLevel_spec 1 (fun _ => 1) h).1⟩

/-- For in-range arguments the size computation takes no wrap anywhere: it
returns the exact mathematical size with the overflow flag clear. -/
theorem hnswComputeNodeSizeSafe_in_range (dim level m : Int)
    (hd1 : 1 ≤ dim) (hd2 : dim ≤ 32767) (hl1 : 0 ≤ level) (hl2 : level ≤ 15)
    (hm1 : 2 ≤ m) (hm2 : m ≤ 128) :
    hnswComputeNodeSizeSafe dim level m =
      (exactNodeSize dim.toNat level.toNat m.toNat, false) := by
  obtain ⟨dn, rfl⟩ : ∃ n : ℕ, dim = (n : Int) :=
    ⟨dim.toNat, (Int.toNat_of_nonneg (by omega)).symm⟩
  obtain ⟨ln, rfl⟩ : ∃ n : ℕ, level = (n : Int) :=
    ⟨level.toNat, (Int.toNat_of_nonneg (by omega)).symm⟩
  obtain ⟨mn, rfl⟩ : ∃ n : ℕ, m = (n : Int) :=
    ⟨m.toNat, (Int.toNat_of_nonneg (by omega)).symm⟩
  have hdn1 : 1 ≤ dn := by exact_mod_cast hd1
  have hdn2 : dn ≤ 32767 := by exact_mod_cast hd2
  have hln : ln ≤ 15 := by exact_mod_cast hl2
  have hmn1 : 2 ≤ mn := by exact_mod_cast hm1
  have hmn2 : mn ≤ 128 := by exact_mod_cast hm2
  have hW : (W64 : Nat) = 2 ^ 64 := rfl
  -- the size_t casts are the identity in range
  have cast1 : (((dn : Int)) % (W64 : Int)).toNat = dn := by
    rw [Int.emod_eq_of_lt (by omega) (by unfold W64; push_cast; omega)]
    exact Int.toNat_natCast dn
  have cast2 : ((((ln : Int)) + 1) % (W64 : Int)).toNat = ln + 1 := by
    rw [Int.emod_eq_of_lt (by omega) (by unfold W64; push_cast; omega)]
    omega
  have cast3 : (((mn : Int)) % (W64 : Int)).toNat = mn := by
    rw [Int.emod_eq_of_lt (by omega) (by unfold W64; push_cast; omega)]
    exact Int.toNat_natCast mn
  -- bounds for the intermediate products
  have hvec : dn * 4 ≤ 131068 := by omega
  have hnb0 : (ln + 1) * mn ≤ 2048 := by
    calc (ln + 1) * mn ≤ 16 * 128 := Nat.mul_le_mul (by omega) (by omega)
      _ = 2048 := by norm_num
  have m1 : dn * 4 % W64 = dn * 4 := Nat.mod_eq_of_lt (by unfold W64; omega)
  have m2 : (ln + 1) * mn % W64 = (ln + 1) * mn :=
    Nat.mod_eq_of_lt (by unfold W64; omega)
  have m3 : (ln + 1) * mn * 2 % W64 = (ln + 1) * mn * 2 :=
    Nat.mod_eq_of_lt (by unfold W64; omega)
  have m4 : (ln + 1) * mn * 2 * 4 % W64 = (ln + 1) * mn * 2 * 4 :=
    Nat.mod_eq_of_lt (by unfold W64; omega)
  have htot : 48 + dn * 4 + (ln + 1) * mn * 2 * 4 < W64 := by unfold W64; omega
  have m5 : (48 + dn * 4 + (ln + 1) * mn * 2 * 4) % W64 =
      48 + dn * 4 + (ln + 1) * mn * 2 * 4 := Nat.mod_eq_of_lt htot
  have m6 : (48 + dn * 4 + (ln + 1) * mn * 2 * 4 + 7) % W64 =
      48 + dn * 4 + (ln + 1) * mn * 2 * 4 + 7 :=
    Nat.mod_eq_of_lt (by unfold W64; omega)
  unfold hnswComputeNodeSizeSafe HNSW_MIN_M HNSW_MAX_M SIZEOF_HNSW_NODE_DATA
    MAXALIGN64 exactNodeSize
  rw [if_neg (by push_cast; omega)]
  dsimp only
  rw [cast1, cast2, cast3, m1, m2, m3, m4]
  rw [if_neg (by omega)]
  rw [if_neg (by omega)]
  rw [m5]
  rw [if_neg (by omega)]
  rw [m6]
  rw [if_neg (by omega)]
  simp only [Int.toNat_natCast]
  rfl

/--
**C3.** For every `(dim, level, m)` in `[1,32767] × [0,15] × [2,128]`, the
node-size computation never returns a truncated (wrapped-around) value — it
returns the exact mathematical size with the overflow flag clear — and on the
insert path the size is either accepted with a value that fits the host page
(`≤ BLCKSZ`) or an error is raised (overflow check or free-space check).
-/
theorem nodeSize_overflow_safe (dim level m : Int) (freeSpace : Nat)
    (hd1 : 1 ≤ dim) (hd2 : dim ≤ 32767) (hl1 : 0 ≤ level) (hl2 : level ≤ 15)
    (hm1 : 2 ≤ m) (hm2 : m ≤ 128) (hfs : freeSpace ≤ BLCKSZ) :
    ((hnswComputeNodeSizeSafe dim level m).2 = false ∧
      (hnswComputeNodeSizeSafe dim level m).1 =
        exactNodeSize dim.toNat level.toNat m.toNat) ∧
    (∀ sz, hnswInsertNodeSizeGuard dim level m freeSpace = some sz →
      sz ≤ BLCKSZ) := by
  have e := hnswComputeNodeSizeSafe_in_range dim level m hd1 hd2 hl1 hl2 hm1 hm2
  refine ⟨⟨by rw [e], by rw [e]⟩, ?_⟩
  intro sz hsz
  unfold hnswInsertNodeSizeGuard at hsz
  rw [e] at hsz
  dsimp only at hsz
  by_cases h0 : exactNodeSize dim.toNat level.toNat m.toNat = 0
  · rw [if_pos (Or.inr h0)] at hsz
    exact absurd hsz (by simp)
  · rw [if_neg (by simp [h0])] at hsz
    by_cases hf : freeSpace < exactNodeSize dim.toNat level.toNat m.toNat
    · rw [if_pos hf] at hsz
      exact absurd hsz (by simp)
    · rw [if_neg hf] at hsz
      injection hsz with h
      omega

/-- Witness for **C3** at `(dim, level, m) = (3, 0, 16)` with the free space
of a fresh page. -/
theorem nodeSize_overflow_safe_witness :
    hnswInsertNodeSizeGuard 3 0 16 hnswPageFreeSpace = some 192 ∧ 192 ≤ BLCKSZ :=
  ⟨by rfl,
    (nodeSize_overflow_safe 3 0 16 hnswPageFreeSpace (by norm_num) (by norm_num)
      (by norm_num) (by norm_num) (by norm_num) (by norm_num)
      (by norm_num [hnswPageFreeSpace, BLCKSZ])).2 192 (by rfl)⟩

/--
**C4.** On every successful insert of a node with drawn level `L`:
`inserted_count` grows by exactly 1; if the entry point was the sentinel or
`L > entry_level` then the entry point becomes the newly allocated page
(block `nblocks st`, the relation extension) with `entry_level = L`,
otherwise both are unchanged; and `max_level` becomes
`max (old max_level) L`.
-/
theorem hnswInsert_meta_update (d : aDistFn) (fuel : Nat) (st : HnswState)
    (vector : List ℚ) (dim : Int) (heapTid : Nat) (drawnLevel : Nat)
    (st' : HnswState) (hlev : drawnLevel ≤ 15)
    (hok : (hnswInsertNodeM d fuel st vector dim heapTid drawnLevel).1 = .ok st') :
    st'.meta.insertedVectors = st.meta.insertedVectors + 1
    ∧ ((st.meta.entryPoint = INVALID_BLOCK ∨
          (drawnLevel : Int) > st.meta.entryLevel) →
        st'.meta.entryPoint = nblocks st ∧
          st'.meta.entryLevel = (drawnLevel : Int))
    ∧ (¬ (st.meta.entryPoint = INVALID_BLOCK ∨
          (drawnLevel : Int) > st.meta.entryLevel) →
        st'.meta.entryPoint = st.meta.entryPoint ∧
          st'.meta.entryLevel = st.meta.entryLevel)
    ∧ st'.meta.maxLevel = max st.meta.maxLevel (drawnLevel : Int) := by
  unfold hnswInsertNodeM at hok
  have hmin : min drawnLevel (HNSW_MAX_LEVEL - 1) = drawnLevel := by
    unfold HNSW_MAX_LEVEL
    omega
  rw [hmin] at hok
  dsimp only at hok
  split_ifs at hok
  all_goals try (dsimp only at hok)
  all_goals try (exact Except.noConfusion hok)
  all_goals try (split at hok)
  all_goals try (dsimp only at hok)
  all_goals try (exact Except.noConfusion hok)
  all_goals try (split_ifs at hok)
  all_goals try (dsimp only at hok)
  all_goals try (exact Except.noConfusion hok)
  all_goals replace hok := Except.ok.inj hok
  all_goals subst hok
  all_goals refine ⟨rfl, ?_, ?_, ?_⟩
  all_goals try (intro hc)
  all_goals try (exact ⟨rfl, rfl⟩)
  all_goals first
    | (exact absurd hc (by tauto))
    | (dsimp only; omega)

/-- A one-page state (fresh meta, `m = 16`) used by insert witnesses. -/
def freshIndexState : HnswState :=
  ⟨⟨INVALID_BLOCK, -1, -1, 16, 200, 64, 0⟩, [.empty]⟩

/-- The state produced by the witness insert below (entry point on the new
page 1, level 0, count 1). -/
def insertedOnceState : HnswState :=
  ⟨⟨1, 0, 0, 16, 200, 64, 1⟩,
    [.empty, .node false ⟨7, 0, 1, List.replicate 16 0, [1],
      [List.replicate 32 INVALID_BLOCK]⟩]⟩

/-- Witness for **C4**: inserting `[1]` into a fresh index (entry-point
sentinel) puts the entry point on the new page 1 at level 0 and sets
`inserted_count` to 1. -/
theorem hnswInsert_meta_update_witness :
    (hnswInsertNodeM (fun _ _ _ => 0) 3 freshIndexState [1] 1 7 0).1 =
        .ok insertedOnceState ∧
      insertedOnceState.meta.insertedVectors =
        freshIndexState.meta.insertedVectors + 1 ∧
      insertedOnceState.meta.entryPoint = nblocks freshIndexState ∧
      insertedOnceState.meta.maxLevel =
        max freshIndexState.meta.maxLevel ((0 : Nat) : Int) :=
  have h0 : (hnswInsertNodeM (fun _ _ _ => 0) 3 freshIndexState [1] 1 7 0).1 =
      .ok insertedOnceState := by rfl
  have h := hnswInsert_meta_update (fun _ _ _ => 0) 3 freshIndexState [1] 1 7 0
    insertedOnceState (by omega) h0
  ⟨h0, h.1, (h.2.1 (Or.inl rfl)).1, h.2.2.2⟩

/-! ### C5: every distance computation during insert uses strategy 1 -/

/-- Fold invariant helper. -/
theorem foldl_trace_inv {α β : Type _} (P : α → Prop) (f : α → β → α)
    (l : List β) (init : α) (h0 : P init)
    (hstep : ∀ a b, P a → P (f a b)) : P (l.foldl f init) := by
  induction l generalizing init with
  | nil => exact h0
  | cons x xs ih => exact ih _ (hstep _ _ h0)

/-- Every strategy recorded by one greedy pass is the pass's `strategy`. -/
theorem greedyPass_strats (d : aDistFn) (st : HnswState) (q : List ℚ)
    (strat : Int) (lvl cur : Nat) :
    ∀ s ∈ (greedyPass d st q strat lvl cur).2.2.2, s = strat := by
  unfold greedyPass
  by_cases h1 : validBlock st cur = true
  · rw [if_neg (not_not_intro h1)]
    cases hpg : getPage st cur with
    | empty => simp
    | node dd rec =>
      dsimp only
      by_cases h2 : validLevel rec.level = true
      · rw [if_neg (not_not_intro h2)]
        by_cases h3 : (lvl : Int) ≤ rec.level
        · rw [if_pos h3]
          intro s hs
          dsimp only at hs
          rcases List.mem_cons.1 hs with rfl | hmem
          · rfl
          · clear hs
            revert s hmem
            refine foldl_trace_inv
              (fun (acc : Nat × ℚ × Bool × List Nat × List Int) =>
                ∀ s ∈ acc.2.2.2.2, s = strat) _ _ _ ?_ ?_
            · simp
            · intro a b hP
              obtain ⟨c1, c2, c3, c4, c5⟩ := a
              dsimp only
              by_cases hA : b = INVALID_BLOCK
              · rw [if_pos hA]
                exact hP
              · rw [if_neg hA]
                by_cases hB : validBlock st b = true
                · rw [if_neg (not_not_intro hB)]
                  cases hpb : getPage st b with
                  | empty => simpa using hP
                  | node dd2 nrec =>
                    dsimp only
                    by_cases hC : d strat q nrec.vec < c2
                    all_goals
                      first | rw [if_pos hC] | rw [if_neg hC]
                    all_goals
                      intro s hs
                      simp only [List.mem_append, List.mem_singleton] at hs
                      rcases hs with hs | rfl
                      · exact hP s hs
                      · rfl
                · rw [if_pos hB]
                  exact hP
        · rw [if_neg h3]
          simp
      · rw [if_pos h2]
        simp
  · rw [if_pos h1]
    simp

/-- `greedyLevelLoop` records only its own `strategy`. -/
theorem greedyLevelLoop_strats (d : aDistFn) (st : HnswState) (q : List ℚ)
    (strat : Int) (lvl : Nat) :
    ∀ fuel cur, ∀ s ∈ (greedyLevelLoop d st q strat lvl fuel cur).2.2, s = strat := by
  intro fuel
  induction fuel with
  | zero => simp [greedyLevelLoop]
  | succ n ih =>
    intro cur s hs
    unfold greedyLevelLoop at hs
    dsimp only at hs
    split_ifs at hs with hf
    · dsimp only at hs
      rcases List.mem_append.1 hs with hm | hm
      · exact greedyPass_strats d st q strat lvl cur s hm
      · exact ih _ s hm
    · exact greedyPass_strats d st q strat lvl cur s hs

/-- Phase-A descent records only its own `strategy`. -/
theorem greedyDescend_strats (d : aDistFn) (st : HnswState) (q : List ℚ)
    (strat : Int) (fuel startLevel cur : Nat) :
    ∀ s ∈ (greedyDescend d st q strat fuel startLevel cur).2.2, s = strat := by
  unfold greedyDescend
  refine foldl_trace_inv
    (fun (acc : Nat × List Nat × List Int) => ∀ s ∈ acc.2.2, s = strat) _ _ _
    ?_ ?_
  · simp
  · intro a lvl hP s hs
    dsimp only at hs
    rcases List.mem_append.1 hs with hm | hm
    · exact hP s hm
    · exact greedyLevelLoop_strats d st q strat lvl fuel a.1 s hm

/-- `layer0Step` appends only its own `strategy`. -/
theorem layer0Step_strats (d : aDistFn) (st : HnswState) (q : List ℚ)
    (strat : Int) (efSearch : Nat) (acc : CandAcc) (b : Nat)
    (hP : ∀ s ∈ acc.strats, s = strat) :
    ∀ s ∈ (layer0Step d st q strat efSearch acc b).strats, s = strat := by
  unfold layer0Step
  by_cases h1 : b = INVALID_BLOCK
  · rw [if_pos h1]
    exact hP
  · rw [if_neg h1]
    by_cases h2 : validBlock st b = true
    · rw [if_neg (not_not_intro h2)]
      by_cases h3 : b ∈ acc.visited
      · rw [if_pos h3]
        exact hP
      · rw [if_neg h3]
        cases hpb : getPage st b with
        | empty => simpa using hP
        | node dd nrec =>
          dsimp only
          by_cases hC : acc.cands.length < efSearch
          · rw [if_pos hC]
            intro s hs
            simp only [List.mem_append, List.mem_singleton] at hs
            rcases hs with hs | rfl
            · exact hP s hs
            · rfl
          · rw [if_neg hC]
            intro s hs
            split_ifs at hs
            all_goals
              simp only [List.mem_append, List.mem_singleton] at hs
              rcases hs with hs | rfl
              · exact hP s hs
              · rfl
    · rw [if_pos h2]
      exact hP

/-- The layer-0 loop records only its own `strategy`. -/
theorem layer0Loop_strats (d : aDistFn) (st : HnswState) (q : List ℚ)
    (strat : Int) (efSearch : Nat) :
    ∀ fuel i acc, (∀ s ∈ acc.strats, s = strat) →
      ∀ s ∈ (layer0Loop d st q strat efSearch fuel i acc).strats, s = strat := by
  intro fuel
  induction fuel with
  | zero => intro i acc hP; simpa [layer0Loop] using hP
  | succ n ih =>
    intro i acc hP
    unfold layer0Loop
    dsimp only
    by_cases hc : i < acc.cands.length ∧ acc.cands.length < efSearch
    · rw [if_pos hc]
      refine ih _ _ ?_
      by_cases h1 : validBlock st ((acc.cands.getD i (INVALID_BLOCK, 0)).1) = true
      · rw [if_neg (not_not_intro h1)]
        cases hpg : getPage st ((acc.cands.getD i (INVALID_BLOCK, 0)).1) with
        | empty => simpa using hP
        | node dd rec =>
          dsimp only
          by_cases h2 : validLevel rec.level = true
          · rw [if_neg (not_not_intro h2)]
            refine foldl_trace_inv (fun (a : CandAcc) => ∀ s ∈ a.strats, s = strat)
              _ _ _ ?_ ?_
            · simpa using hP
            · intro a b hQ
              exact layer0Step_strats d st q strat efSearch a b hQ
          · rw [if_pos h2]
            simpa using hP
      · rw [if_pos h1]
        exact hP
    · rw [if_neg hc]
      exact hP

/-- Every strategy recorded by a whole search is the search's `strategy`. -/
theorem hnswSearchM_strats (d : aDistFn) (fuel : Nat) (st : HnswState)
    (q : List ℚ) (strat : Int) (efSearch k : Nat) :
    ∀ s ∈ (hnswSearchM d fuel st q strat efSearch k).strats, s = strat := by
  unfold hnswSearchM
  by_cases h0 : st.meta.entryPoint = INVALID_BLOCK
  · rw [if_pos h0]
    simp
  · rw [if_neg h0]
    dsimp only
    set cur := (greedyDescend d st q strat fuel
      (if st.meta.entryLevel < 0 ∨ (HNSW_MAX_LEVEL : Int) ≤ st.meta.entryLevel
        then 0 else st.meta.entryLevel.toNat) st.meta.entryPoint).1 with hcur
    have hA : ∀ s ∈ (greedyDescend d st q strat fuel
        (if st.meta.entryLevel < 0 ∨ (HNSW_MAX_LEVEL : Int) ≤ st.meta.entryLevel
          then 0 else st.meta.entryLevel.toNat) st.meta.entryPoint).2.2, s = strat :=
      fun s hs => greedyDescend_strats d st q strat fuel _ _ s hs
    by_cases h1 : validBlock st cur = true
    · rw [if_neg (not_not_intro h1)]
      cases hpg : getPage st cur with
      | empty => exact hA
      | node dd rec =>
        dsimp only
        by_cases h2 : validLevel rec.level = true
        · rw [if_neg (not_not_intro h2)]
          refine layer0Loop_strats d st q strat efSearch _ 0 _ ?_
          intro s hs
          simp only [List.mem_append, List.mem_singleton] at hs
          rcases hs with hs | rfl
          · exact hA s hs
          · rfl
        · rw [if_pos h2]
          exact hA
    · rw [if_pos h1]
      exact hA

/-- One pass of the insert-time greedy descent records only strategy 1. -/
theorem insertGreedyPass_strats (d : aDistFn) (st : HnswState)
    (vector : List ℚ) (level be : Nat) :
    ∀ s ∈ (insertGreedyPass d st vector level be).2.2, s = 1 := by
  unfold insertGreedyPass
  by_cases h1 : validBlock st be = true
  · rw [if_neg (not_not_intro h1)]
    cases hpg : getPage st be with
    | empty => simp
    | node dd erec =>
      dsimp only
      by_cases h2 : validLevel erec.level = true
      · rw [if_neg (not_not_intro h2)]
        by_cases h3 : (level : Int) ≤ erec.level
        · rw [if_pos h3]
          intro s hs
          dsimp only at hs
          rcases List.mem_cons.1 hs with rfl | hmem
          · rfl
          · clear hs
            revert s hmem
            refine foldl_trace_inv
              (fun (acc : Nat × ℚ × Bool × List Int) =>
                ∀ s ∈ acc.2.2.2, s = 1) _ _ _ ?_ ?_
            · simp
            · intro a b hP
              obtain ⟨c1, c2, c3, c4⟩ := a
              dsimp only
              by_cases hA : b = INVALID_BLOCK
              · rw [if_pos hA]
                exact hP
              · rw [if_neg hA]
                by_cases hB : b < nblocks st
                · rw [if_neg (not_not_intro hB)]
                  cases hpb : getPage st b with
                  | empty => simpa using hP
                  | node dd2 nrec =>
                    dsimp only
                    intro s hs
                    split_ifs at hs
                    all_goals
                      simp only [List.mem_append, List.mem_singleton] at hs
                      rcases hs with hs | rfl
                      · exact hP s hs
                      · rfl
                · rw [if_pos hB]
                  exact hP
        · rw [if_neg h3]
          simp
      · rw [if_pos h2]
        simp
  · rw [if_pos h1]
    simp

/-- The bounded insert-time greedy loop records only strategy 1. -/
theorem insertGreedyLoop_strats (d : aDistFn) (st : HnswState)
    (vector : List ℚ) (level : Nat) :
    ∀ n be, ∀ s ∈ (insertGreedyLoop d st vector level n be).2, s = 1 := by
  intro n
  induction n with
  | zero => simp [insertGreedyLoop]
  | succ k ih =>
    intro be s hs
    unfold insertGreedyLoop at hs
    dsimp only at hs
    split_ifs at hs with hf
    · dsimp only at hs
      rcases List.mem_append.1 hs with hm | hm
      · exact insertGreedyPass_strats d st vector level be s hm
      · exact ih _ s hm
    · exact insertGreedyPass_strats d st vector level be s hs

/-- The pruning distance pass records only strategy 1. -/
theorem pruneDistsBuild_strats (d : aDistFn) (st : HnswState) (row : List Nat)
    (vvec : List ℚ) (blkno : Nat) (selDist : ℚ) (pruneCount : Nat) :
    ∀ s ∈ (pruneDistsBuild d st row vvec blkno selDist pruneCount).2, s = 1 := by
  unfold pruneDistsBuild
  dsimp only
  refine foldl_trace_inv
    (fun (acc : List (ℚ × Nat) × Bool × List Int) => ∀ s ∈ acc.2.2, s = 1)
    _ _ _ ?_ ?_
  · simp
  · intro a j hP
    obtain ⟨arr, broken, trace⟩ := a
    dsimp only
    split_ifs with hA hB hC hD
    · exact hP
    · exact hP
    · exact hP
    · cases hpb : getPage st (row.getD j INVALID_BLOCK) with
      | empty => exact hP
      | node dd2 orec =>
        intro s hs
        dsimp only at hs
        simp only [List.mem_append, List.mem_singleton] at hs
        rcases hs with hs | rfl
        · exact hP s hs
        · rfl
    · exact hP

/-- Back-linking one selected neighbor records only strategy 1. -/
theorem linkOneNeighbor_strats (d : aDistFn) (meta : HnswMetaRec)
    (pages : List HnswPage) (blkno currentLevel nb : Nat) (selDist : ℚ) :
    ∀ s ∈ (linkOneNeighbor d meta pages blkno currentLevel nb selDist).2, s = 1 := by
  unfold linkOneNeighbor
  dsimp only
  split
  · simp
  · next dd vrec heq =>
    by_cases h2 : validLevel vrec.level = true
    · rw [if_neg (not_not_intro h2)]
      split_ifs
      all_goals first
        | exact fun s hs => pruneDistsBuild_strats d _ _ _ _ _ _ s hs
        | simp
    · rw [if_pos h2]
      simp

/-- One linking layer records only strategy 1. -/
theorem linkLevel_strats (d : aDistFn) (fuel : Nat) (meta : HnswMetaRec)
    (pages : List HnswPage) (blkno : Nat) (vector : List ℚ)
    (currentLevel : Nat) :
    ∀ s ∈ (linkLevel d fuel meta pages blkno vector currentLevel).2, s = 1 := by
  unfold linkLevel
  dsimp only
  cases hpg : getPage ⟨meta, pages⟩ blkno with
  | empty =>
    exact fun s hs => hnswSearchM_strats d fuel ⟨meta, pages⟩ vector 1 _ _ s hs
  | node dd nrec =>
    dsimp only
    intro s hs
    rcases List.mem_append.1 hs with hm | hm
    · exact hnswSearchM_strats d fuel ⟨meta, pages⟩ vector 1 _ _ s hm
    · clear hs
      revert s hm
      refine foldl_trace_inv
        (fun (acc : List HnswPage × List Int) => ∀ s ∈ acc.2, s = 1) _ _ _ ?_ ?_
      · simp
      · intro a idx hP s hs
        dsimp only at hs
        rcases List.mem_append.1 hs with hm | hm
        · exact hP s hm
        · exact linkOneNeighbor_strats d meta _ blkno currentLevel _ _ s hm

/-- The whole linking phase records only strategy 1. -/
theorem linkPhase_strats (d : aDistFn) (fuel : Nat) (meta : HnswMetaRec)
    (pages : List HnswPage) (blkno : Nat) (vector : List ℚ) (level : Nat) :
    ∀ s ∈ (linkPhase d fuel meta pages blkno vector level).2, s = 1 := by
  unfold linkPhase
  split_ifs with h1
  · simp
  · refine foldl_trace_inv
      (fun (acc : Except String (List HnswPage) × List Int) =>
        ∀ s ∈ acc.2, s = 1) _ _ _ ?_ ?_
    · simp
    · intro a lvl hP
      obtain ⟨res, trace⟩ := a
      cases res with
      | error e => exact hP
      | ok pgs =>
        intro s hs
        dsimp only at hs
        rcases List.mem_append.1 hs with hm | hm
        · exact hP s hm
        · exact linkLevel_strats d fuel meta pgs blkno vector lvl s hm

/--
**C5.** Every distance computation performed during an insert — the greedy
descent to a local entry, the per-level candidate searches, and the pruning
of a neighbor's list — uses the L2 distance (strategy 1), whatever strategy
any later query uses.
-/
theorem hnswInsert_all_distances_L2 (d : aDistFn) (fuel : Nat)
    (st : HnswState) (vector : List ℚ) (dim : Int) (heapTid : Nat)
    (drawnLevel : Nat) :
    ∀ s ∈ (hnswInsertNodeM d fuel st vector dim heapTid drawnLevel).2, s = 1 := by
  unfold hnswInsertNodeM
  dsimp only
  have hA : ∀ s ∈ (if st.meta.entryPoint ≠ INVALID_BLOCK ∧
      0 < min drawnLevel (HNSW_MAX_LEVEL - 1) then
      (insertGreedyLoop d st vector (min drawnLevel (HNSW_MAX_LEVEL - 1)) 10
        st.meta.entryPoint).2 else ([] : List Int)), s = 1 := by
    split_ifs with hg
    · exact insertGreedyLoop_strats d st vector _ 10 st.meta.entryPoint
    · simp
  by_cases hc1 : (hnswComputeNodeSizeSafe dim
      ((min drawnLevel (HNSW_MAX_LEVEL - 1) : Nat) : Int) st.meta.m).2 = true ∨
      (hnswComputeNodeSizeSafe dim
        ((min drawnLevel (HNSW_MAX_LEVEL - 1) : Nat) : Int) st.meta.m).1 = 0
  · rw [if_pos hc1]
    simp
  · rw [if_neg hc1]
    by_cases hc2 : hnswPageFreeSpace < (hnswComputeNodeSizeSafe dim
        ((min drawnLevel (HNSW_MAX_LEVEL - 1) : Nat) : Int) st.meta.m).1
    · rw [if_pos hc2]
      exact hA
    · rw [if_neg hc2]
      by_cases hc3 : st.meta.entryPoint ≠ INVALID_BLOCK ∧ 0 ≤ st.meta.entryLevel
      · rw [if_pos hc3]
        split
        · next e trB heq =>
            intro s hs
            dsimp only at hs
            rcases List.mem_append.1 hs with hm | hm
            · exact hA s hm
            · have hB := linkPhase_strats d fuel st.meta
                (st.pages ++
                  [HnswPage.node false
                    ⟨heapTid, ((min drawnLevel (HNSW_MAX_LEVEL - 1) : Nat) : Int),
                      dim, List.replicate HNSW_MAX_LEVEL 0, vector,
                      List.replicate (min drawnLevel (HNSW_MAX_LEVEL - 1) + 1)
                        (List.replicate (st.meta.m * 2).toNat INVALID_BLOCK)⟩]) (nblocks st) vector
                (min drawnLevel (HNSW_MAX_LEVEL - 1))
              rw [heq] at hB
              exact hB s hm
        · next pages2 trB heq =>
            have hB := linkPhase_strats d fuel st.meta
              (st.pages ++
                  [HnswPage.node false
                    ⟨heapTid, ((min drawnLevel (HNSW_MAX_LEVEL - 1) : Nat) : Int),
                      dim, List.replicate HNSW_MAX_LEVEL 0, vector,
                      List.replicate (min drawnLevel (HNSW_MAX_LEVEL - 1) + 1)
                        (List.replicate (st.meta.m * 2).toNat INVALID_BLOCK)⟩]) (nblocks st) vector
              (min drawnLevel (HNSW_MAX_LEVEL - 1))
            rw [heq] at hB
            split_ifs
            all_goals
              intro s hs
              dsimp only at hs
              rcases List.mem_append.1 hs with hm | hm
              · first
                | exact hA s hm
                | exact insertGreedyLoop_strats d st vector _ 10 st.meta.entryPoint s hm
                | simp at hm
              · exact hB s hm
      · rw [if_neg hc3]
        dsimp only
        split_ifs
        all_goals
          intro s hs
          dsimp only at hs
          rcases List.mem_append.1 hs with hm | hm
          · first
            | exact hA s hm
            | exact insertGreedyLoop_strats d st vector _ 10 st.meta.entryPoint s hm
            | simp at hm
          · simp at hm

/-- A one-node index (`m = 2`, entry on block 1) used by the C5 witness. -/
def c5WitnessState : HnswState :=
  ⟨⟨1, 0, 0, 2, 4, 4, 1⟩,
    [.empty, .node false ⟨5, 0, 1, List.replicate 16 0, [1],
      [[INVALID_BLOCK, INVALID_BLOCK, INVALID_BLOCK, INVALID_BLOCK]]⟩]⟩

/-- Witness for **C5**: inserting into a one-node index does perform distance
computations, and a recorded strategy is 1. -/
theorem hnswInsert_all_distances_L2_witness :
    (1 : Int) ∈ (hnswInsertNodeM (fun _ _ _ => 0) 2 c5WitnessState [0] 1 9 0).2 ∧
      (1 : Int) = 1 :=
  ⟨by decide,
    hnswInsert_all_distances_L2 (fun _ _ _ => 0) 2 c5WitnessState [0] 1 9 0 1
      (by decide)⟩

/-! ### C1/C2: the bulk-delete path

Frame and effect lemmas for `removeNodeFromNeighbor` and the removal folds of
`singleNodeBulkDelete`. -/

/-- The observable shape of a page: whether it holds a node, its dead flag
and its level (the data the entry-replacement scan and the removal guards
consult on pages other than their own target). -/
def pageShape : HnswPage → Option (Bool × Int)
  | .empty => none
  | .node d r => some (d, r.level)

/-- A page holding a node lies inside the relation. -/
theorem getPage_node_lt_length (st : HnswState) (b : Nat) (dd : Bool)
    (r : HnswNodeRec) (h : getPage st b = .node dd r) : b < st.pages.length := by
  by_contra hb
  unfold getPage at h
  rw [List.getD_eq_getElem?_getD, List.getElem?_eq_none (by omega)] at h
  simp at h

/-- `getD` after `set` at a different index. -/
theorem getD_set_ne {α : Type _} (l : List α) (i j : Nat) (v d : α)
    (h : i ≠ j) : (l.set i v).getD j d = l.getD j d := by
  rw [List.getD_eq_getElem?_getD, List.getD_eq_getElem?_getD,
    List.getElem?_set_ne h]

/-- Reading back the page just written. -/
theorem getPage_setPage_self (st : HnswState) (b : Nat) (p : HnswPage)
    (h : b < st.pages.length) : getPage (setPage st b p) b = p := by
  unfold getPage setPage
  dsimp only
  rw [List.getD_eq_getElem?_getD, List.getElem?_set_eq_of_lt p h]
  rfl

/-- Reading another page after a write. -/
theorem getPage_setPage_ne (st : HnswState) (b b' : Nat) (p : HnswPage)
    (h : b ≠ b') : getPage (setPage st b p) b' = getPage st b' := by
  unfold getPage setPage
  dsimp only
  rw [List.getD_eq_getElem?_getD, List.getD_eq_getElem?_getD,
    List.getElem?_set_ne h]

/-- `removeNodeFromNeighbor` leaves the meta record unchanged. -/
theorem remove_meta (st : HnswState) (nb ub lvl : Nat) :
    (removeNodeFromNeighbor st nb ub lvl).meta = st.meta := by
  unfold removeNodeFromNeighbor
  split_ifs <;> try rfl
  split <;> try rfl
  split_ifs <;> try rfl
  dsimp only
  split_ifs <;> rfl

/-- `removeNodeFromNeighbor` leaves the relation size unchanged. -/
theorem remove_length (st : HnswState) (nb ub lvl : Nat) :
    (removeNodeFromNeighbor st nb ub lvl).pages.length = st.pages.length := by
  unfold removeNodeFromNeighbor
  split_ifs <;> try rfl
  split <;> try rfl
  split_ifs <;> try rfl
  dsimp only
  split_ifs <;> simp [setPage]

/-- `removeNodeFromNeighbor` touches only its target page. -/
theorem remove_frame (st : HnswState) (nb ub lvl b : Nat) (hb : b ≠ nb) :
    getPage (removeNodeFromNeighbor st nb ub lvl) b = getPage st b := by
  unfold removeNodeFromNeighbor
  split_ifs <;> try rfl
  split <;> try rfl
  split_ifs <;> try rfl
  dsimp only
  split_ifs <;> try rfl
  exact getPage_setPage_ne st _ b _ (by omega)

/-- `removeNodeFromNeighbor` preserves every page's shape (node-ness, dead
flag, level). -/
theorem remove_shape (st : HnswState) (nb ub lvl b : Nat) :
    pageShape (getPage (removeNodeFromNeighbor st nb ub lvl) b) =
      pageShape (getPage st b) := by
  by_cases hb : b = nb
  · subst hb
    unfold removeNodeFromNeighbor
    split_ifs <;> try rfl
    split
    · rfl
    · next dead rec heq =>
      split_ifs <;> try rfl
      dsimp only
      split_ifs with hmem
      · have hlt : b < st.pages.length := getPage_node_lt_length st b dead rec heq
        rw [getPage_setPage_self st b _ hlt, heq]
        rfl
      · rfl
  · rw [remove_frame st nb ub lvl b hb]

/-- The clamped neighbor prefix of the node (if any) at block `b`, layer `ℓ`
(`[]` for empty pages). -/
def layerPrefixAt (st : HnswState) (b ℓ : Nat) : List Nat :=
  match getPage st b with
  | .empty => []
  | .node _ r => layerPrefix r ℓ st.meta.m

/-- `clampCount` is monotone in the raw count. -/
theorem clampCount_mono (c c' m : Int) (h : c' ≤ c) :
    clampCount c' m ≤ clampCount c m := by
  unfold clampCount
  split_ifs <;> omega

/-- A non-empty `getD` read lies inside the list. -/
theorem getD_ne_default_lt {α : Type _} [DecidableEq α] (l : List α) (i : Nat)
    (d : α) (h : l.getD i d ≠ d) : i < l.length := by
  by_contra hb
  rw [List.getD_eq_getElem?_getD, List.getElem?_eq_none (by omega)] at h
  simp at h

/-- A write to a different layer leaves a layer's clamped prefix unchanged —
and so does any write to another page. -/
theorem remove_layer_frame (st : HnswState) (nb ub lvl b ℓ : Nat)
    (h : b ≠ nb ∨ lvl ≠ ℓ) :
    layerPrefixAt (removeNodeFromNeighbor st nb ub lvl) b ℓ =
      layerPrefixAt st b ℓ := by
  rcases h with h | h
  · unfold layerPrefixAt
    rw [remove_frame st nb ub lvl b h, remove_meta]
  · by_cases hb : b = nb
    · subst hb
      unfold removeNodeFromNeighbor
      split_ifs <;> try rfl
      split
      · rfl
      · next dead rec heq =>
        split_ifs <;> try rfl
        dsimp only
        split_ifs with hmem
        · have hlt : b < st.pages.length := getPage_node_lt_length st b dead rec heq
          unfold layerPrefixAt
          rw [getPage_setPage_self st b _ hlt]
          dsimp only
          rw [heq]
          unfold layerPrefix layerSlots
          dsimp only
          rw [getD_set_ne _ _ _ _ _ h, getD_set_ne _ _ _ _ _ h]
          rfl
        · rfl
    · unfold layerPrefixAt
      rw [remove_frame st nb ub lvl b hb, remove_meta]

/-- Writing and reading back the same index. -/
theorem getD_set_lt {α : Type _} (l : List α) (i : Nat) (v d : α)
    (h : i < l.length) : (l.set i v).getD i d = v := by
  rw [List.getD_eq_getElem?_getD, List.getElem?_set_eq_of_lt v h]
  rfl

/--
The removal effect: when the guards pass and `ub` occurs (at most once) in
the target's layer prefix, it is gone from that prefix afterwards.
-/
theorem remove_effect (st : HnswState) (nb ub lvl : Nat)
    (hub_ne : ub ≠ INVALID_BLOCK) (hvb : validBlock st nb = true)
    (hlvl : lvl < HNSW_MAX_LEVEL) (dd : Bool) (recw : HnswNodeRec)
    (hw : getPage st nb = .node dd recw)
    (hwl : validLevel recw.level = true)
    (hmem : ub ∈ layerPrefix recw lvl st.meta.m)
    (hcount : (layerPrefix recw lvl st.meta.m).count ub ≤ 1) :
    ub ∉ layerPrefixAt (removeNodeFromNeighbor st nb ub lvl) nb lvl := by
  have hlt : nb < st.pages.length := getPage_node_lt_length st nb dd recw hw
  unfold layerPrefix at hmem hcount
  have hrow_ne : layerSlots recw lvl ≠ [] := by
    intro hr
    rw [hr] at hmem
    simp at hmem
  have hrow_ne' : recw.slots.getD lvl [] ≠ [] := hrow_ne
  have hslots_lt : lvl < recw.slots.length :=
    getD_ne_default_lt recw.slots lvl [] hrow_ne'
  have hcnt_pos : 0 < clampCount (recw.counts.getD lvl 0) st.meta.m := by
    by_contra hc
    rw [Nat.le_zero.1 (Nat.not_lt.1 hc)] at hmem
    simp at hmem
  have hraw_pos : (0 : Int) < recw.counts.getD lvl 0 := by
    by_contra hc
    unfold clampCount at hcnt_pos
    split_ifs at hcnt_pos <;> omega
  have hcounts_lt : lvl < recw.counts.length :=
    getD_ne_default_lt recw.counts lvl 0 (by omega)
  unfold removeNodeFromNeighbor
  rw [if_neg (not_not_intro hvb), if_neg (not_not_intro hlvl), hw]
  dsimp only
  rw [if_neg (not_not_intro hwl)]
  rw [if_pos hmem]
  unfold layerPrefixAt
  rw [getPage_setPage_self st nb _ hlt]
  dsimp only [setPage]
  unfold layerPrefix layerSlots
  dsimp only
  rw [getD_set_lt _ _ _ _ hslots_lt, getD_set_lt _ _ _ _ hcounts_lt]
  unfold layerSlots at hmem hcount
  -- notation for the pieces
  set row := recw.slots.getD lvl [] with hrow
  set raw := recw.counts.getD lvl 0 with hraw2
  set cnt := clampCount raw st.meta.m with hcnt
  set pre := List.take cnt row with hpre
  set A := pre.erase ub ++ [INVALID_BLOCK] with hAdef
  have hnotA : ub ∉ A := by
    rw [hAdef]
    intro hub
    rcases List.mem_append.1 hub with hub | hub
    · have h1 : 0 < pre.count ub := List.count_pos_iff_mem.2 hmem
      have h0 : (pre.erase ub).count ub = 0 := by
        rw [List.count_erase_self]
        omega
      exact (List.count_eq_zero.1 h0) hub
    · simp at hub
      exact hub_ne hub
  have hAlen : A.length = pre.length := by
    rw [hAdef]
    rw [List.length_append, List.length_erase_of_mem hmem]
    have h1 : 1 ≤ pre.length := List.length_pos_of_mem hmem
    simp
    omega
  have hk : clampCount (raw - 1) st.meta.m ≤ cnt := clampCount_mono _ _ _ (by omega)
  intro hub
  rw [List.take_append_eq_append_take] at hub
  rcases List.mem_append.1 hub with h | h
  · exact hnotA (List.mem_of_mem_take h)
  · by_cases hrl : cnt ≤ row.length
    · have hpl : pre.length = cnt := by
        rw [hpre, List.length_take]
        omega
      have : clampCount (raw - 1) st.meta.m - A.length = 0 := by
        rw [hAlen, hpl]
        omega
      rw [this] at h
      simp at h
    · have : row.drop cnt = [] := List.drop_eq_nil_of_le (by omega)
      rw [this] at h
      simp at h

/-- Fold preservation: a property preserved by each step (for elements of the
list being folded) is preserved by the whole fold. -/
theorem foldl_pres_mem {α β : Type _} (P : α → Prop) (f : α → β → α)
    (l : List β) (hf : ∀ a b, b ∈ l → P a → P (f a b)) :
    ∀ a, P a → P (l.foldl f a) := by
  induction l with
  | nil => intro a ha; exact ha
  | cons x xs ih =>
    intro a ha
    rw [List.foldl_cons]
    exact ih (fun a b hb => hf a b (List.mem_cons_of_mem x hb)) (f a x)
      (hf a x (List.mem_cons_self x xs) ha)

/-- When the target block does not occur in the addressed prefix, the removal
is a no-op (either a guard fails or the scan does not find it). -/
theorem remove_nofire (st : HnswState) (nb ub lvl : Nat)
    (h : ub ∉ layerPrefixAt st nb lvl) :
    removeNodeFromNeighbor st nb ub lvl = st := by
  unfold removeNodeFromNeighbor
  split_ifs <;> try rfl
  split
  · rfl
  · next dead rec heq =>
    split_ifs <;> try rfl
    dsimp only
    split_ifs with hmem
    · exfalso
      apply h
      unfold layerPrefixAt
      rw [heq]
      exact hmem
    · rfl

/-- Removing `ub` never introduces `ub` into any clamped prefix. -/
theorem remove_mono (st : HnswState) (nb ub lvl b ℓ : Nat)
    (h : ub ∉ layerPrefixAt st b ℓ) :
    ub ∉ layerPrefixAt (removeNodeFromNeighbor st nb ub lvl) b ℓ := by
  by_cases hbl : b = nb ∧ ℓ = lvl
  · obtain ⟨h1, h2⟩ := hbl
    subst h1; subst h2
    rw [remove_nofire st b ub ℓ h]
    exact h
  · rw [remove_layer_frame st nb ub lvl b ℓ
      (by
        by_cases hb : b = nb
        · right; intro he; exact hbl ⟨hb, he.symm⟩
        · exact Or.inl hb)]
    exact h

/-- One back-link removal step never introduces `ub` into any prefix. -/
theorem bulkRemoveSlot_mono (s : HnswState) (ub lvl i b ℓ : Nat)
    (h : ub ∉ layerPrefixAt s b ℓ) :
    ub ∉ layerPrefixAt (bulkRemoveSlot s ub lvl i) b ℓ := by
  unfold bulkRemoveSlot
  split
  · dsimp only
    split_ifs with hg
    · exact remove_mono _ _ _ _ _ _ h
    · exact h
  · exact h

/-- One back-link removal step leaves the meta record unchanged. -/
theorem bulkRemoveSlot_meta (s : HnswState) (ub lvl i : Nat) :
    (bulkRemoveSlot s ub lvl i).meta = s.meta := by
  unfold bulkRemoveSlot
  split
  · dsimp only
    split_ifs with hg
    · exact remove_meta _ _ _ _
    · rfl
  · rfl

/-- One back-link removal step leaves the relation size unchanged. -/
theorem bulkRemoveSlot_length (s : HnswState) (ub lvl i : Nat) :
    (bulkRemoveSlot s ub lvl i).pages.length = s.pages.length := by
  unfold bulkRemoveSlot
  split
  · dsimp only
    split_ifs with hg
    · exact remove_length _ _ _ _
    · rfl
  · rfl

/-- One back-link removal step preserves every page's shape. -/
theorem bulkRemoveSlot_shape (s : HnswState) (ub lvl i b : Nat) :
    pageShape (getPage (bulkRemoveSlot s ub lvl i) b) =
      pageShape (getPage s b) := by
  unfold bulkRemoveSlot
  split
  · dsimp only
    split_ifs with hg
    · exact remove_shape _ _ _ _ _
    · rfl
  · rfl

/-- A back-link removal step at a layer `lvl ≠ ℓ` leaves every `ℓ`-prefix
unchanged. -/
theorem bulkRemoveSlot_layer_ne (s : HnswState) (ub lvl i b ℓ : Nat)
    (h : lvl ≠ ℓ) :
    layerPrefixAt (bulkRemoveSlot s ub lvl i) b ℓ = layerPrefixAt s b ℓ := by
  unfold bulkRemoveSlot
  split
  · dsimp only
    split_ifs with hg
    · exact remove_layer_frame _ _ _ _ _ _ (Or.inr h)
    · rfl
  · rfl

/--
The state invariant maintained by the whole back-link removal of a node `ub`
whose own lists never mention `ub` itself: `ub`'s page is untouched, the meta
record and relation size are unchanged, and every page keeps its shape.
-/
def delInv (st s : HnswState) (ub : Nat) (recu : HnswNodeRec) : Prop :=
  getPage s ub = .node false recu ∧ s.meta = st.meta ∧
    s.pages.length = st.pages.length ∧
    ∀ b, pageShape (getPage s b) = pageShape (getPage st b)

/-- `bulkRemoveSlot` preserves `delInv` (using that `ub` never lists itself at
the layer being processed). -/
theorem bulkRemoveSlot_inv (st s : HnswState) (ub lvl i : Nat)
    (recu : HnswNodeRec) (hself : ub ∉ layerPrefix recu lvl st.meta.m)
    (h : delInv st s ub recu) : delInv st (bulkRemoveSlot s ub lvl i) ub recu := by
  obtain ⟨hu, hm, hl, hs⟩ := h
  unfold bulkRemoveSlot
  rw [hu]
  dsimp only
  split_ifs with hg
  · set bs := (layerSlots recu lvl).getD i INVALID_BLOCK with hbs
    refine ⟨?_, (remove_meta _ _ _ _).trans hm, (remove_length _ _ _ _).trans hl,
      fun b => (remove_shape _ _ _ _ _).trans (hs b)⟩
    by_cases hbu : bs = ub
    · rw [hbu, remove_nofire]
      · exact hu
      · unfold layerPrefixAt
        rw [hu]
        dsimp only
        rw [hm]
        exact hself
    · rw [remove_frame s bs ub lvl ub (fun he => hbu he.symm)]
      exact hu
  · exact ⟨hu, hm, hl, hs⟩

/-- `bulkRemoveLevel` preserves `delInv`. -/
theorem bulkRemoveLevel_inv (st s : HnswState) (ub lvl : Nat)
    (recu : HnswNodeRec) (hself : ub ∉ layerPrefix recu lvl st.meta.m)
    (h : delInv st s ub recu) : delInv st (bulkRemoveLevel s ub lvl) ub recu := by
  unfold bulkRemoveLevel
  split
  · exact foldl_pres_mem (fun a => delInv st a ub recu) _ _
      (fun a i _ ha => bulkRemoveSlot_inv st a ub lvl i recu hself ha) s h
  · exact h

/-- `bulkRemoveAll` preserves `delInv` (and in particular establishes it from
the initial state when the deleted node never lists itself). -/
theorem bulkRemoveAll_inv (st : HnswState) (ub : Nat) (recu : HnswNodeRec)
    (hpage : getPage st ub = .node false recu)
    (hself : ∀ l, l ≤ recu.level.toNat → ub ∉ layerPrefix recu l st.meta.m) :
    delInv st (bulkRemoveAll st ub) ub recu := by
  unfold bulkRemoveAll
  rw [hpage]
  dsimp only
  refine foldl_pres_mem (fun a => delInv st a ub recu) _ _
    (fun a l hl ha => bulkRemoveLevel_inv st a ub l recu
      (hself l (by
        have := List.mem_range.1 hl
        omega)) ha) st ⟨hpage, rfl, rfl, fun _ => rfl⟩

/-- `bulkRemoveLevel` never introduces `ub` into any prefix. -/
theorem bulkRemoveLevel_mono (s : HnswState) (ub lvl b ℓ : Nat)
    (h : ub ∉ layerPrefixAt s b ℓ) :
    ub ∉ layerPrefixAt (bulkRemoveLevel s ub lvl) b ℓ := by
  unfold bulkRemoveLevel
  split
  · exact foldl_pres_mem (fun a => ub ∉ layerPrefixAt a b ℓ) _ _
      (fun a i _ ha => bulkRemoveSlot_mono a ub lvl i b ℓ ha) s h
  · exact h

/-- `bulkRemoveAll` never introduces `ub` into any prefix. -/
theorem bulkRemoveAll_mono (s : HnswState) (ub b ℓ : Nat)
    (h : ub ∉ layerPrefixAt s b ℓ) :
    ub ∉ layerPrefixAt (bulkRemoveAll s ub) b ℓ := by
  unfold bulkRemoveAll
  split
  · exact foldl_pres_mem (fun a => ub ∉ layerPrefixAt a b ℓ) _ _
      (fun a l _ ha => bulkRemoveLevel_mono a ub l b ℓ ha) s h
  · exact h

/-- `ItemIdSetDead` leaves the meta record unchanged. -/
theorem markDead_meta (s : HnswState) (u : Nat) : (markDead s u).meta = s.meta := by
  unfold markDead
  split <;> rfl

/-- `ItemIdSetDead` touches only its own page. -/
theorem markDead_frame (s : HnswState) (u b : Nat) (h : b ≠ u) :
    getPage (markDead s u) b = getPage s b := by
  unfold markDead
  split
  · exact getPage_setPage_ne _ _ _ _ (fun he => h he.symm)
  · rfl

/-- `ItemIdSetDead` on a node page sets exactly the dead bit. -/
theorem markDead_self (s : HnswState) (u : Nat) (dd : Bool) (rec : HnswNodeRec)
    (h : getPage s u = .node dd rec) :
    getPage (markDead s u) u = .node true rec := by
  unfold markDead
  rw [h]
  dsimp only
  exact getPage_setPage_self _ _ _ (getPage_node_lt_length s u dd rec h)

/-- `ItemIdSetDead` leaves every clamped neighbor prefix unchanged. -/
theorem markDead_prefix (s : HnswState) (u b ℓ : Nat) :
    layerPrefixAt (markDead s u) b ℓ = layerPrefixAt s b ℓ := by
  by_cases hbu : b = u
  · subst hbu
    unfold markDead
    cases hp : getPage s b with
    | empty => rfl
    | node dd rec =>
      unfold layerPrefixAt
      rw [getPage_setPage_self _ _ _ (getPage_node_lt_length s b dd rec hp), hp]
      dsimp only [setPage]
  · unfold layerPrefixAt
    rw [markDead_frame _ _ _ hbu, markDead_meta]

/-- Replacing the meta record by one with the same `m` leaves every clamped
neighbor prefix unchanged. -/
theorem layerPrefixAt_metaSwap (s : HnswState) (M : HnswMetaRec) (b ℓ : Nat)
    (hM : M.m = s.meta.m) :
    layerPrefixAt { s with meta := M } b ℓ = layerPrefixAt s b ℓ := by
  unfold layerPrefixAt
  have hg : getPage { s with meta := M } b = getPage s b := rfl
  rw [hg]
  split
  · rfl
  · rw [hM]

/-- Entry-point replacement never changes the stored `m`. -/
theorem bulkEntryReplace_m (s : HnswState) (ub : Nat) :
    (bulkEntryReplace s ub).m = s.meta.m := by
  unfold bulkEntryReplace
  split_ifs <;> try rfl
  split <;> try rfl
  split <;> rfl

/-- `findSome?` returns the head of the `filterMap`. -/
theorem findSome_eq_head_filterMap {α β : Type _} (f : α → Option β)
    (l : List α) : l.findSome? f = (l.filterMap f).head? := by
  induction l with
  | nil => rfl
  | cons x xs ih =>
    cases hx : f x with
    | none =>
      have h1 : List.findSome? f (x :: xs) = List.findSome? f xs := by
        rw [List.findSome?_cons, hx]
      have h2 : List.filterMap f (x :: xs) = List.filterMap f xs := by
        rw [List.filterMap_cons, hx]
      rw [h1, h2, ih]
    | some v =>
      have h1 : List.findSome? f (x :: xs) = some v := by
        rw [List.findSome?_cons, hx]
      have h2 : List.filterMap f (x :: xs) = v :: List.filterMap f xs := by
        rw [List.filterMap_cons, hx]
      rw [h1, h2]
      rfl

/--
The candidate list of the entry-replacement scan, written from the amended
spec sentence: the deleted node's neighbors, layers scanned from the node's
top layer down and slots within a layer in order, keeping those that are
valid blocks holding a non-empty page with a valid level (paired with that
neighbor's own level).
-/
def neighborCands (st : HnswState) (rec : HnswNodeRec) : List (Nat × Int) :=
  ((List.range (rec.level.toNat + 1)).reverse.flatMap
      (fun l => layerPrefix rec l st.meta.m)).filterMap
    (fun b =>
      if b ≠ INVALID_BLOCK ∧ validBlock st b then
        match getPage st b with
        | .node _ nrec => if validLevel nrec.level then some (b, nrec.level) else none
        | .empty => none
      else none)

/-- The amended replacement rule: the FIRST valid neighbor in that scan (not
the highest-level one). -/
def firstValidNeighborSpec (st : HnswState) (rec : HnswNodeRec) :
    Option (Nat × Int) :=
  (neighborCands st rec).head?

/-- The code's scan implements the amended first-valid-neighbor rule. -/
theorem findReplacementEntry_eq_spec (st : HnswState) (rec : HnswNodeRec) :
    findReplacementEntry st rec = firstValidNeighborSpec st rec := by
  unfold findReplacementEntry firstValidNeighborSpec neighborCands
  exact findSome_eq_head_filterMap _ _

/-- The entry-replacement scan reads only data preserved by the back-link
removal (meta, relation size, page shapes), so it computes the same
replacement before and after it. -/
theorem findReplacementEntry_pres (st s : HnswState) (rec : HnswNodeRec)
    (hm : s.meta = st.meta) (hl : s.pages.length = st.pages.length)
    (hs : ∀ b, pageShape (getPage s b) = pageShape (getPage st b)) :
    findReplacementEntry s rec = findReplacementEntry st rec := by
  unfold findReplacementEntry
  rw [hm]
  congr 1
  funext b
  have hvb : validBlock s b = validBlock st b := by
    unfold validBlock nblocks
    rw [hl]
  rw [hvb]
  by_cases hc : b ≠ INVALID_BLOCK ∧ validBlock st b = true
  · rw [if_pos hc, if_pos hc]
    cases hp : getPage s b with
    | empty =>
      cases hq : getPage st b with
      | empty => rfl
      | node d2 r2 =>
        exfalso
        have hsb := hs b
        rw [hp, hq] at hsb
        simp [pageShape] at hsb
    | node d1 r1 =>
      cases hq : getPage st b with
      | empty =>
        exfalso
        have hsb := hs b
        rw [hp, hq] at hsb
        simp [pageShape] at hsb
      | node d2 r2 =>
        have hsb := hs b
        rw [hp, hq] at hsb
        simp [pageShape] at hsb
        dsimp only
        rw [hsb.2]
  · rw [if_neg hc, if_neg hc]

/-- Reading inside a `take` prefix reads the underlying list. -/
theorem get_take_getD {α : Type _} (l : List α) (n j : Nat) (d : α)
    (hj : j < (l.take n).length) :
    (l.take n).get ⟨j, hj⟩ = l.getD j d := by
  have hjl : j < l.length := by
    rw [List.length_take] at hj
    omega
  rw [List.get_eq_getElem, List.getElem_take, List.getD_eq_getElem?_getD,
    List.getElem?_eq_getElem hjl]
  rfl

/--
The establishing step of the back-link removal: when the loop reaches the
slot holding `b` — a node whose layer-`ℓ` prefix contains `ub` at most once,
as it did initially — the step removes `ub` from it.
-/
theorem bulkRemoveSlot_establish (st si : HnswState) (ub ℓ i b : Nat)
    (recu recb0 : HnswNodeRec) (ddb0 : Bool)
    (hlen : st.pages.length ≤ INVALID_BLOCK)
    (hlvl : ℓ < HNSW_MAX_LEVEL)
    (hb0 : getPage st b = .node ddb0 recb0)
    (hvlb : validLevel recb0.level = true)
    (hmem0 : ub ∈ layerPrefix recb0 ℓ st.meta.m)
    (hcnt1 : (layerPrefix recb0 ℓ st.meta.m).count ub ≤ 1)
    (hslot : (layerSlots recu ℓ).getD i INVALID_BLOCK = b)
    (hinv : delInv st si ub recu)
    (hprei : layerPrefixAt si b ℓ = layerPrefixAt st b ℓ) :
    ub ∉ layerPrefixAt (bulkRemoveSlot si ub ℓ i) b ℓ := by
  obtain ⟨hui, hmi, hli, hsi⟩ := hinv
  unfold bulkRemoveSlot
  rw [hui]
  dsimp only
  rw [hslot]
  have hblt : b < st.pages.length := getPage_node_lt_length st b ddb0 recb0 hb0
  have hbne : b ≠ INVALID_BLOCK := Nat.ne_of_lt (lt_of_lt_of_le hblt hlen)
  have hvbsi : validBlock si b = true := by
    unfold validBlock nblocks
    rw [hli]
    simp only [Bool.and_eq_true, decide_eq_true_eq]
    exact ⟨hbne, hblt⟩
  rw [if_pos ⟨hbne, hvbsi⟩]
  cases hp : getPage si b with
  | empty =>
    exfalso
    have hsh := hsi b
    rw [hp, hb0] at hsh
    simp [pageShape] at hsh
  | node ddb' recb' =>
    have hsh := hsi b
    rw [hp, hb0] at hsh
    simp [pageShape] at hsh
    have hpeq : layerPrefix recb' ℓ st.meta.m = layerPrefix recb0 ℓ st.meta.m := by
      have h1 : layerPrefixAt si b ℓ = layerPrefix recb' ℓ st.meta.m := by
        unfold layerPrefixAt
        rw [hp]
        dsimp only
        rw [hmi]
      have h2 : layerPrefixAt st b ℓ = layerPrefix recb0 ℓ st.meta.m := by
        unfold layerPrefixAt
        rw [hb0]
      rw [h1, h2] at hprei
      exact hprei
    have hubne : ub ≠ INVALID_BLOCK := by
      have hult : ub < si.pages.length := getPage_node_lt_length si ub false recu hui
      rw [hli] at hult
      exact Nat.ne_of_lt (lt_of_lt_of_le hult hlen)
    refine remove_effect si b ub ℓ hubne hvbsi hlvl ddb' recb' hp ?_ ?_ ?_
    · rw [hsh.2]
      exact hvlb
    · rw [show si.meta.m = st.meta.m from by rw [hmi], hpeq]
      exact hmem0
    · rw [show si.meta.m = st.meta.m from by rw [hmi], hpeq]
      exact hcnt1

/--
The layer-`ℓ` back-link removal loop of `hnswbulkdelete` removes `ub` from
the layer-`ℓ` list of each node `b` the deleted node lists there (given the
well-formedness package: no self-links, no duplicate slots, unique back-link
occurrence).
-/
theorem bulkRemoveLevel_clean (st s0 : HnswState) (ub ℓ b : Nat)
    (recu recb0 : HnswNodeRec) (ddb0 : Bool)
    (hlen : st.pages.length ≤ INVALID_BLOCK)
    (hlvl : ℓ < HNSW_MAX_LEVEL)
    (hnd : (layerPrefix recu ℓ st.meta.m).Nodup)
    (hselfl : ub ∉ layerPrefix recu ℓ st.meta.m)
    (hb0 : getPage st b = .node ddb0 recb0)
    (hvlb : validLevel recb0.level = true)
    (hbmem : b ∈ layerPrefix recu ℓ st.meta.m)
    (hmem0 : ub ∈ layerPrefix recb0 ℓ st.meta.m)
    (hcnt1 : (layerPrefix recb0 ℓ st.meta.m).count ub ≤ 1)
    (hinv0 : delInv st s0 ub recu)
    (hpre0 : layerPrefixAt s0 b ℓ = layerPrefixAt st b ℓ) :
    ub ∉ layerPrefixAt (bulkRemoveLevel s0 ub ℓ) b ℓ := by
  obtain ⟨hu0, hm0, hl0, hs0⟩ := hinv0
  unfold bulkRemoveLevel
  rw [hu0]
  dsimp only
  rw [show clampCount (recu.counts.getD ℓ 0) s0.meta.m =
      clampCount (recu.counts.getD ℓ 0) st.meta.m from by rw [hm0]]
  obtain ⟨⟨i, hi⟩, hget⟩ := List.mem_iff_get.1 hbmem
  have hi' : i < ((layerSlots recu ℓ).take
      (clampCount (recu.counts.getD ℓ 0) st.meta.m)).length := hi
  have hicnt : i < clampCount (recu.counts.getD ℓ 0) st.meta.m := by
    rw [List.length_take] at hi'
    omega
  have hilen : i < (layerSlots recu ℓ).length := by
    rw [List.length_take] at hi'
    omega
  obtain ⟨k, hk⟩ : ∃ k, clampCount (recu.counts.getD ℓ 0) st.meta.m = i + (1 + k) :=
    ⟨clampCount (recu.counts.getD ℓ 0) st.meta.m - i - 1, by omega⟩
  rw [hk, List.range_add, List.foldl_append, show 1 + k = k + 1 from by omega,
    List.range_succ_eq_map, List.map_cons, List.foldl_cons]
  try dsimp only
  try rw [Nat.add_zero]
  refine foldl_pres_mem (fun a => ub ∉ layerPrefixAt a b ℓ) _ _
    (fun a x _ ha => bulkRemoveSlot_mono a ub ℓ x b ℓ ha) _ ?_
  have hphase1 : delInv st
        (List.foldl (fun s j => bulkRemoveSlot s ub ℓ j) s0 (List.range i)) ub recu ∧
      getPage (List.foldl (fun s j => bulkRemoveSlot s ub ℓ j) s0 (List.range i)) b =
        getPage s0 b := by
    refine foldl_pres_mem
      (fun a => delInv st a ub recu ∧ getPage a b = getPage s0 b) _ _ ?_ s0
      ⟨⟨hu0, hm0, hl0, hs0⟩, rfl⟩
    intro a j hj hP
    obtain ⟨ha, hba⟩ := hP
    have hjlt : j < i := List.mem_range.1 hj
    refine ⟨bulkRemoveSlot_inv st a ub ℓ j recu hselfl ha, ?_⟩
    obtain ⟨hua, hma, hla, hsa⟩ := ha
    unfold bulkRemoveSlot
    rw [hua]
    dsimp only
    split_ifs with hg
    · have hjslots : j < (layerSlots recu ℓ).length := by
        by_contra hns
        exact hg.1 (by
          rw [List.getD_eq_getElem?_getD, List.getElem?_eq_none (by omega)]
          rfl)
      have hjp : j < ((layerSlots recu ℓ).take
          (clampCount (recu.counts.getD ℓ 0) st.meta.m)).length := by
        rw [List.length_take]
        omega
      have hbj_ne : (layerSlots recu ℓ).getD j INVALID_BLOCK ≠ b := by
        intro he
        have h1 : (layerPrefix recu ℓ st.meta.m).get ⟨j, hjp⟩ =
            (layerSlots recu ℓ).getD j INVALID_BLOCK :=
          get_take_getD _ _ _ _ hjp
        have h2 : (layerPrefix recu ℓ st.meta.m).get ⟨j, hjp⟩ =
            (layerPrefix recu ℓ st.meta.m).get ⟨i, hi⟩ := by
          rw [h1, he, hget]
        have h3 : j = i := congrArg Fin.val ((List.Nodup.get_inj_iff hnd).1 h2)
        omega
      rw [remove_frame a _ ub ℓ b (fun he => hbj_ne he.symm)]
      exact hba
    · exact hba
  refine bulkRemoveSlot_establish st _ ub ℓ i b recu recb0 ddb0 hlen hlvl hb0 hvlb
    hmem0 hcnt1 ?_ hphase1.1 ?_
  · have h1 : (layerPrefix recu ℓ st.meta.m).get ⟨i, hi⟩ =
        (layerSlots recu ℓ).getD i INVALID_BLOCK :=
      get_take_getD _ _ _ _ hi'
    rw [← h1]
    exact hget
  · have hmi : (List.foldl (fun s j => bulkRemoveSlot s ub ℓ j) s0
        (List.range i)).meta = st.meta := hphase1.1.2.1
    unfold layerPrefixAt
    rw [hphase1.2, hmi]
    unfold layerPrefixAt at hpre0
    rw [hm0] at hpre0
    exact hpre0

/--
The whole back-link removal of `hnswbulkdelete` clears `ub` from the
layer-`ℓ` list of every node `b` that the deleted node lists at layer `ℓ`
(under the well-formedness package).
-/
theorem bulkRemoveAll_clean (st : HnswState) (ub b ℓ : Nat)
    (recu recb0 : HnswNodeRec) (ddb0 : Bool)
    (hpage : getPage st ub = .node false recu)
    (hul : validLevel recu.level = true)
    (hlen : st.pages.length ≤ INVALID_BLOCK)
    (hself : ∀ l, l ≤ recu.level.toNat → ub ∉ layerPrefix recu l st.meta.m)
    (hnd : (layerPrefix recu ℓ st.meta.m).Nodup)
    (hb0 : getPage st b = .node ddb0 recb0)
    (hvlb : validLevel recb0.level = true)
    (hle : ℓ ≤ recu.level.toNat)
    (hbmem : b ∈ layerPrefix recu ℓ st.meta.m)
    (hmem0 : ub ∈ layerPrefix recb0 ℓ st.meta.m)
    (hcnt1 : (layerPrefix recb0 ℓ st.meta.m).count ub ≤ 1) :
    ub ∉ layerPrefixAt (bulkRemoveAll st ub) b ℓ := by
  have hlvl : ℓ < HNSW_MAX_LEVEL := by
    unfold validLevel at hul
    simp only [Bool.and_eq_true, decide_eq_true_eq] at hul
    unfold HNSW_MAX_LEVEL
    omega
  unfold bulkRemoveAll
  rw [hpage]
  dsimp only
  obtain ⟨k, hk⟩ : ∃ k, recu.level.toNat + 1 = ℓ + (1 + k) :=
    ⟨recu.level.toNat - ℓ, by omega⟩
  rw [hk, List.range_add, List.foldl_append, show 1 + k = k + 1 from by omega,
    List.range_succ_eq_map, List.map_cons, List.foldl_cons]
  try dsimp only
  try rw [Nat.add_zero]
  refine foldl_pres_mem (fun a => ub ∉ layerPrefixAt a b ℓ) _ _
    (fun a x _ ha => bulkRemoveLevel_mono a ub x b ℓ ha) _ ?_
  have hA : delInv st
        (List.foldl (fun s l => bulkRemoveLevel s ub l) st (List.range ℓ)) ub recu ∧
      layerPrefixAt (List.foldl (fun s l => bulkRemoveLevel s ub l) st
        (List.range ℓ)) b ℓ = layerPrefixAt st b ℓ := by
    refine foldl_pres_mem
      (fun a => delInv st a ub recu ∧ layerPrefixAt a b ℓ = layerPrefixAt st b ℓ)
      _ _ ?_ st ⟨⟨hpage, rfl, rfl, fun _ => rfl⟩, rfl⟩
    intro a x hx hP
    obtain ⟨ha, hpa⟩ := hP
    have hxl : x < ℓ := List.mem_range.1 hx
    refine ⟨bulkRemoveLevel_inv st a ub x recu (hself x (by omega)) ha, ?_⟩
    have hfr : layerPrefixAt (bulkRemoveLevel a ub x) b ℓ = layerPrefixAt a b ℓ := by
      unfold bulkRemoveLevel
      split
      · refine foldl_pres_mem
          (fun s => layerPrefixAt s b ℓ = layerPrefixAt a b ℓ) _ _ ?_ a rfl
        intro a2 i _ ha2
        rw [bulkRemoveSlot_layer_ne a2 ub x i b ℓ (by omega), ha2]
      · rfl
    rw [hfr, hpa]
  exact bulkRemoveLevel_clean st _ ub ℓ b recu recb0 ddb0 hlen hlvl hnd
    (hself ℓ hle) hb0 hvlb hbmem hmem0 hcnt1 hA.1 hA.2

/-- Two states agreeing on a page and on `m` agree on that page's clamped
prefixes. -/
theorem layerPrefixAt_congr (s t : HnswState) (b ℓ : Nat)
    (hp : getPage s b = getPage t b) (hm : s.meta.m = t.meta.m) :
    layerPrefixAt s b ℓ = layerPrefixAt t b ℓ := by
  unfold layerPrefixAt
  rw [hp]
  split
  · rfl
  · rw [hm]

/-- The back-link removal / entry-replacement stage of the single-node bulk
delete (before the final `insertedVectors` update). -/
def delStage2 (st : HnswState) (ub : Nat) : HnswState :=
  markDead
    { bulkRemoveAll st ub with meta := bulkEntryReplace (bulkRemoveAll st ub) ub }
    ub

/-- The single-node bulk delete, spelled as its stages. -/
def delFinal (st : HnswState) (ub : Nat) : HnswState :=
  { delStage2 st ub with
    meta := { (delStage2 st ub).meta with
      insertedVectors :=
        if (delStage2 st ub).meta.insertedVectors - 1 < 0 then 0
        else (delStage2 st ub).meta.insertedVectors - 1 } }

/-- On a live node with a valid level, the single-node bulk delete is the
staged pipeline `delFinal`. -/
theorem singleNodeBulkDelete_eq (st : HnswState) (ub : Nat) (recu : HnswNodeRec)
    (hpage : getPage st ub = .node false recu)
    (hul : validLevel recu.level = true) :
    singleNodeBulkDelete st ub = delFinal st ub := by
  unfold singleNodeBulkDelete delFinal delStage2
  rw [hpage]
  dsimp only
  rw [if_neg (by simp), if_neg (not_not_intro hul)]

/--
**C1** (corrected).  When the deleted node is the current entry point, the
entry point installed by the bulk-delete path is the FIRST valid neighbor
found scanning the deleted node's layers from its top layer down, slots
within a layer in order (with `entry_level` set to that neighbor's own
level) — not the neighbor with the highest level; when no valid neighbor
exists, `entry_point` becomes `InvalidBlockNumber` and `entry_level` `-1`.
-/
theorem bulkDelete_entry_replacement_first_valid (st : HnswState) (ub : Nat)
    (recu : HnswNodeRec)
    (hpage : getPage st ub = .node false recu)
    (hul : validLevel recu.level = true)
    (hself : ∀ l, l ≤ recu.level.toNat → ub ∉ layerPrefix recu l st.meta.m)
    (hentry : st.meta.entryPoint = ub) :
    ((singleNodeBulkDelete st ub).meta.entryPoint,
        (singleNodeBulkDelete st ub).meta.entryLevel) =
      (firstValidNeighborSpec st recu).getD (INVALID_BLOCK, -1) := by
  obtain ⟨hu1, hm1, hl1, hs1⟩ := bulkRemoveAll_inv st ub recu hpage hself
  rw [singleNodeBulkDelete_eq st ub recu hpage hul]
  have hep : (delFinal st ub).meta.entryPoint =
      (bulkEntryReplace (bulkRemoveAll st ub) ub).entryPoint := by
    unfold delFinal delStage2
    rw [markDead_meta]
  have hel : (delFinal st ub).meta.entryLevel =
      (bulkEntryReplace (bulkRemoveAll st ub) ub).entryLevel := by
    unfold delFinal delStage2
    rw [markDead_meta]
  have hber : bulkEntryReplace (bulkRemoveAll st ub) ub =
      (match firstValidNeighborSpec st recu with
       | some (b, l) => { st.meta with entryPoint := b, entryLevel := l }
       | none => { st.meta with entryPoint := INVALID_BLOCK, entryLevel := -1 }) := by
    unfold bulkEntryReplace
    rw [hm1, hentry, if_pos rfl, hu1]
    dsimp only
    rw [findReplacementEntry_pres st (bulkRemoveAll st ub) recu hm1 hl1 hs1,
      findReplacementEntry_eq_spec]
  rw [hep, hel, hber]
  cases firstValidNeighborSpec st recu with
  | none => rfl
  | some p =>
    obtain ⟨bb, ll⟩ := p
    rfl

/-- The deleted entry node of the C1 counterexample: level 1, listing blocks
2 and 3 at both layers (`m = 2`). -/
def recC1u : HnswNodeRec :=
  ⟨10, 1, 0, [2, 2], [],
    [[2, 3, INVALID_BLOCK, INVALID_BLOCK], [2, 3, INVALID_BLOCK, INVALID_BLOCK]]⟩

/-- Neighbor at block 2: level 1, back-linking block 1 at both layers. -/
def recC1b2 : HnswNodeRec :=
  ⟨11, 1, 0, [1, 1], [],
    [[1, INVALID_BLOCK, INVALID_BLOCK, INVALID_BLOCK],
      [1, INVALID_BLOCK, INVALID_BLOCK, INVALID_BLOCK]]⟩

/-- Neighbor at block 3: level 5 (the HIGHEST level among the candidates),
back-linking block 1 at layer 0. -/
def recC1b3 : HnswNodeRec :=
  ⟨12, 5, 0, [1, 0, 0, 0, 0, 0], [],
    [1, INVALID_BLOCK, INVALID_BLOCK, INVALID_BLOCK] ::
      List.replicate 5 (List.replicate 4 INVALID_BLOCK)⟩

/-- C1 counterexample state: entry point on block 1 (level 1), `m = 2`. -/
def stC1 : HnswState :=
  ⟨⟨1, 1, 5, 2, 200, 64, 3⟩,
    [.empty, .node false recC1u, .node false recC1b2, .node false recC1b3]⟩

/--
**C1** counterexample: deleting the entry node of `stC1` installs neighbor 2
with level 1, although neighbor 3 — also a valid candidate of the deleted
node — has the strictly higher level 5; the claimed highest-level rule does
not describe the code.
-/
theorem bulkDelete_entry_not_highest_level :
    stC1.meta.entryPoint = 1 ∧ getPage stC1 1 = HnswPage.node false recC1u ∧
      (singleNodeBulkDelete stC1 1).meta.entryPoint = 2 ∧
      (singleNodeBulkDelete stC1 1).meta.entryLevel = 1 ∧
      ((3 : Nat), (5 : Int)) ∈ neighborCands stC1 recC1u ∧
      ¬ ((5 : Int) ≤ (singleNodeBulkDelete stC1 1).meta.entryLevel) := by
  decide

/-- Witness for the corrected **C1** at `stC1`: the first valid neighbor of
the level-descending scan is `(2, 1)` and it becomes the new entry. -/
theorem bulkDelete_entry_replacement_first_valid_witness :
    ((singleNodeBulkDelete stC1 1).meta.entryPoint,
        (singleNodeBulkDelete stC1 1).meta.entryLevel) =
      (firstValidNeighborSpec stC1 recC1u).getD (INVALID_BLOCK, -1) ∧
      firstValidNeighborSpec stC1 recC1u = some (2, 1) :=
  ⟨bulkDelete_entry_replacement_first_valid stC1 1 recC1u rfl (by decide)
      (fun l hl => by
        have hb : l ≤ 1 := hl
        interval_cases l <;> decide)
      rfl,
    by decide⟩

/--
**C2** (corrected).  After the single-node bulk delete of a node `ub`, no
live node's neighbor list at any layer contains `ub` — PROVIDED the graph
was well-formed and symmetric at `ub`: `ub` never lists itself, its slot
prefixes have no duplicates, and every node listing `ub` at some layer is
itself listed by `ub` at that layer, has a valid level and lists `ub` at
most once.  (The code only visits the nodes `ub` itself lists, so without
symmetry a back-link can survive.)
-/
theorem bulkDelete_no_backlinks_under_symmetry (st : HnswState) (ub : Nat)
    (recu : HnswNodeRec)
    (hpage : getPage st ub = .node false recu)
    (hul : validLevel recu.level = true)
    (hlen : st.pages.length ≤ INVALID_BLOCK)
    (hself : ∀ l, l ≤ recu.level.toNat → ub ∉ layerPrefix recu l st.meta.m)
    (hnd : ∀ l, (layerPrefix recu l st.meta.m).Nodup)
    (hsym : ∀ b l ddb recb, getPage st b = .node ddb recb →
        ub ∈ layerPrefix recb l st.meta.m →
        l ≤ recu.level.toNat ∧ b ∈ layerPrefix recu l st.meta.m ∧
          validLevel recb.level = true ∧
          (layerPrefix recb l st.meta.m).count ub ≤ 1) :
    ∀ b ℓ recb, getPage (singleNodeBulkDelete st ub) b = .node false recb →
      ub ∉ layerPrefixAt (singleNodeBulkDelete st ub) b ℓ := by
  intro b ℓ recb hb
  obtain ⟨hu1, hm1, hl1, hs1⟩ := bulkRemoveAll_inv st ub recu hpage hself
  rw [singleNodeBulkDelete_eq st ub recu hpage hul] at hb ⊢
  have hbub : b ≠ ub := by
    intro he
    have hmd : getPage (delFinal st ub) ub = .node true recu := by
      have h2 : getPage (delFinal st ub) ub = getPage (delStage2 st ub) ub := rfl
      rw [h2]
      unfold delStage2
      exact markDead_self _ ub false recu hu1
    rw [he, hmd] at hb
    simp at hb
  have h1 : getPage (delStage2 st ub) b = getPage (bulkRemoveAll st ub) b := by
    unfold delStage2
    rw [markDead_frame _ _ _ hbub]
    rfl
  have hgb1 : getPage (bulkRemoveAll st ub) b = .node false recb := by
    rw [← h1]
    exact hb
  have hsb := hs1 b
  rw [hgb1] at hsb
  have hpf : getPage (delFinal st ub) b = getPage (bulkRemoveAll st ub) b := by
    have h2 : getPage (delFinal st ub) b = getPage (delStage2 st ub) b := rfl
    rw [h2, h1]
  have hmf : (delFinal st ub).meta.m = (bulkRemoveAll st ub).meta.m := by
    have h3 : (delFinal st ub).meta.m = (delStage2 st ub).meta.m := rfl
    rw [h3]
    unfold delStage2
    rw [markDead_meta]
    exact bulkEntryReplace_m _ _
  rw [layerPrefixAt_congr (delFinal st ub) (bulkRemoveAll st ub) b ℓ hpf hmf]
  cases hq : getPage st b with
  | empty =>
    rw [hq] at hsb
    simp [pageShape] at hsb
  | node ddb0 recb0 =>
    rw [hq] at hsb
    by_cases hmem0 : ub ∈ layerPrefix recb0 ℓ st.meta.m
    · obtain ⟨hle, hbmem, hvlb, hcnt1⟩ := hsym b ℓ ddb0 recb0 hq hmem0
      exact bulkRemoveAll_clean st ub b ℓ recu recb0 ddb0 hpage hul hlen hself
        (hnd ℓ) hq hvlb hle hbmem hmem0 hcnt1
    · refine bulkRemoveAll_mono st ub b ℓ ?_
      unfold layerPrefixAt
      rw [hq]
      exact hmem0

/-- C2 counterexample, deleted node: level 0, listing nobody. -/
def recC2u : HnswNodeRec :=
  ⟨20, 0, 0, [0], [],
    [[INVALID_BLOCK, INVALID_BLOCK, INVALID_BLOCK, INVALID_BLOCK]]⟩

/-- C2 counterexample, surviving node at block 2: it lists block 1 although
block 1 does not list it back. -/
def recC2w : HnswNodeRec :=
  ⟨21, 0, 0, [1], [], [[1, INVALID_BLOCK, INVALID_BLOCK, INVALID_BLOCK]]⟩

/-- C2 counterexample state (`m = 2`, entry on block 2). -/
def stC2 : HnswState :=
  ⟨⟨2, 0, 0, 2, 200, 64, 2⟩, [.empty, .node false recC2u, .node false recC2w]⟩

/--
**C2** counterexample: node 2 of `stC2` back-links node 1 without being
listed by it; after the bulk delete of node 1 completes (node 1 is marked
dead), node 2 is still live and still lists node 1.
-/
theorem bulkDelete_asymmetric_backlink_survives :
    getPage stC2 1 = HnswPage.node false recC2u ∧
      pageShape (getPage (singleNodeBulkDelete stC2 1) 1) = some (true, 0) ∧
      getPage (singleNodeBulkDelete stC2 1) 2 = HnswPage.node false recC2w ∧
      (1 : Nat) ∈ layerPrefixAt (singleNodeBulkDelete stC2 1) 2 0 := by
  decide

/-- C2 witness, deleted node: level 0, listing block 2. -/
def recC3u : HnswNodeRec :=
  ⟨30, 0, 0, [1], [], [[2, INVALID_BLOCK, INVALID_BLOCK, INVALID_BLOCK]]⟩

/-- C2 witness, neighbor at block 2: symmetric back-link to block 1. -/
def recC3w : HnswNodeRec :=
  ⟨31, 0, 0, [1], [], [[1, INVALID_BLOCK, INVALID_BLOCK, INVALID_BLOCK]]⟩

/-- C2 witness state: a symmetric pair 1 ↔ 2 (`m = 2`). -/
def stC3 : HnswState :=
  ⟨⟨1, 0, 0, 2, 200, 64, 2⟩, [.empty, .node false recC3u, .node false recC3w]⟩

/-- The record of block 2 after block 1 is bulk-deleted from `stC3`: the
back-link is gone. -/
def recC3wPost : HnswNodeRec :=
  ⟨31, 0, 0, [0], [],
    [[INVALID_BLOCK, INVALID_BLOCK, INVALID_BLOCK, INVALID_BLOCK]]⟩

/-- Witness for the corrected **C2** at the symmetric pair `stC3`: after
deleting node 1, the still-live node 2 no longer lists it. -/
theorem bulkDelete_no_backlinks_under_symmetry_witness :
    (1 : Nat) ∉ layerPrefixAt (singleNodeBulkDelete stC3 1) 2 0 ∧
      getPage (singleNodeBulkDelete stC3 1) 2 = HnswPage.node false recC3wPost := by
  have hpost : getPage (singleNodeBulkDelete stC3 1) 2 =
      HnswPage.node false recC3wPost := by decide
  refine ⟨?_, hpost⟩
  refine bulkDelete_no_backlinks_under_symmetry stC3 1 recC3u rfl (by decide)
    (by decide)
    (fun l hl => by
      have hb : l ≤ 0 := hl
      interval_cases l
      decide)
    (fun l => by
      cases l with
      | zero => decide
      | succ n => exact List.nodup_nil)
    ?_ 2 0 recC3wPost hpost
  intro b l ddb recb hb hmem
  rcases Nat.lt_or_ge b 3 with hlt | hge
  · interval_cases b
    · exact HnswPage.noConfusion hb
    · injection hb with h1 h2
      subst h2
      cases l with
      | zero => exact absurd hmem (by decide)
      | succ n => exact absurd hmem (List.not_mem_nil 1)
    · injection hb with h1 h2
      subst h2
      cases l with
      | zero => exact ⟨by decide, by decide, by decide, by decide⟩
      | succ n => exact absurd hmem (List.not_mem_nil 1)
  · have hemp : getPage stC3 b = .empty := by
      unfold getPage
      rw [List.getD_eq_getElem?_getD, List.getElem?_eq_none hge]
      rfl
    rw [hemp] at hb
    exact HnswPage.noConfusion hb

end HnswAm
